import Mathlib

/-!
Shallow embedding of the bulk product importer
(`src/plugin/service/product-import.service.ts`) and of the HEIC upload
converter (`src/src/lib/lib/heic-converter.ts`) of the
vendure-admin-translated repository, together with proofs about the
properties claimed of them.

External effects (the CSV stream parser, the network fetch of asset URLs,
the Vendure framework services backed by the database, the `heic2any`
library) are modelled explicitly: database state is an explicit `Store`
value threaded through the loop, fallible external calls are functions
into `Except`, and every service call is recorded in an operation trace.
JavaScript primitives (`String.prototype.trim`, `Number`, `Math.round`,
`??` and `||` coalescing) are given executable models.
-/

namespace VendureImport

/-- Models JavaScript `String.prototype.trim()` (whitespace strip at both
ends). -/
def jsTrim (s : String) : String :=
  String.mk (((s.data.dropWhile Char.isWhitespace).reverse.dropWhile
    Char.isWhitespace).reverse)

/-- Models JavaScript truthiness of a possibly-undefined string:
`undefined` and the empty string are falsy. -/
def optTruthy : Option String → Bool
  | none => false
  | some s => !(s == "")

/-- Models a chain of JavaScript `??` (nullish coalescing): the first
non-`undefined` value wins, even if it is the empty string. -/
def firstSome : List (Option String) → Option String
  | [] => none
  | none :: rest => firstSome rest
  | some v :: _ => some v

/-- Models a chain of JavaScript `||` (truthiness coalescing) whose result
feeds a truthiness test: the first truthy (non-empty, defined) string, if
any. -/
def firstTruthy (xs : List (Option String)) : Option String :=
  (xs.filterMap id).find? (fun s => !(s == ""))

/-- Numeric value of a decimal digit character. -/
def digToNat (c : Char) : Nat := c.toNat - '0'.toNat

/-- Value of a list of decimal digit characters. -/
def digitsVal (ds : List Char) : Nat := ds.foldl (fun a c => a * 10 + digToNat c) 0

/-- A finite JavaScript number, represented exactly as the scaled decimal
`num * 10 ^ exp10` that a decimal literal denotes. -/
structure JsNum where
  num : Int
  exp10 : Int
deriving DecidableEq

/-- Parses an unsigned decimal mantissa `digits[.digits]` requiring at
least one digit; returns the mantissa, the number of fraction digits and
the unconsumed rest. -/
def parseUnsigned (cs : List Char) : Option (Int × Int × List Char) :=
  let ip := cs.takeWhile Char.isDigit
  let rest1 := cs.dropWhile Char.isDigit
  match rest1 with
  | '.' :: rest2 =>
    let fp := rest2.takeWhile Char.isDigit
    let rest3 := rest2.dropWhile Char.isDigit
    if ip.isEmpty && fp.isEmpty then none
    else some (((digitsVal ip * 10 ^ fp.length + digitsVal fp : Nat) : Int),
      (fp.length : Int), rest3)
  | _ =>
    if ip.isEmpty then none else some (((digitsVal ip : Nat) : Int), 0, rest1)

/-- Parses the digits of an exponent, with the sign already consumed. -/
def parseExpDigits (neg : Bool) (cs : List Char) : Option (Int × List Char) :=
  let ds := cs.takeWhile Char.isDigit
  let r := cs.dropWhile Char.isDigit
  if ds.isEmpty then none
  else some ((if neg then -(digitsVal ds : Int) else (digitsVal ds : Int)), r)

/-- Parses an exponent after the `e`/`E` marker. -/
def parseExpTail : List Char → Option (Int × List Char)
  | '+' :: r => parseExpDigits false r
  | '-' :: r => parseExpDigits true r
  | cs => parseExpDigits false cs

/-- Parses an optional `e`/`E` exponent part. -/
def parseExpPart : List Char → Option (Int × List Char)
  | 'e' :: rest => parseExpTail rest
  | 'E' :: rest => parseExpTail rest
  | cs => some (0, cs)

/-- Mantissa together with exponent, after an optional sign. -/
def jsNumberSigned (neg : Bool) (cs : List Char) : Option JsNum :=
  match parseUnsigned cs with
  | none => none
  | some (mant, fracLen, rest) =>
    match parseExpPart rest with
    | none => none
    | some (e, rest2) =>
      if rest2.isEmpty then some ⟨(if neg then -mant else mant), e - fracLen⟩
      else none

/-- Models JavaScript `Number(string)` restricted to finite decimal
results: `none` stands for `NaN` or an infinity (both of which fail
the `Number.isFinite` check of the caller), `some q` for a finite value.  The
empty (after trimming) string converts to `0` as in JavaScript. -/
def jsNumber (s : String) : Option JsNum :=
  let cs := (jsTrim s).data
  match cs with
  | [] => some ⟨0, 0⟩
  | '+' :: r => jsNumberSigned false r
  | '-' :: r => jsNumberSigned true r
  | _ => jsNumberSigned false cs

def tenPow (k : Nat) : Int := (10 : Int) ^ k

/-- Models JavaScript `Math.round` on a finite value: half-up rounding
(`Math.round(-1.5) = -1`), i.e. the floor of `value + 1/2`. -/
def jsRound (q : JsNum) : Int :=
  match q.exp10 with
  | .ofNat k => q.num * tenPow k
  | .negSucc k => Int.fdiv (2 * q.num + tenPow (k + 1)) (2 * tenPow (k + 1))

/-- Models `String(raw).replace(/[\,\s]/g, '')`: strip commas and
whitespace everywhere. -/
def cleanNumeric (s : String) : String :=
  String.mk (s.data.filter (fun c => !(c == ',' || c.isWhitespace)))

/-! ### The slugify pipeline

`slugify` (product-import.service.ts lines 762-769) is
`input.toLowerCase().normalize('NFKD').replace(/[̀-ͯ]/g, '')
.replace(/[^a-z0-9]+/g, '-').replace(/(^-|-$)+/g, '')`. -/

/-- A character the final `[^a-z0-9]` character class keeps: a lowercase
ASCII letter (code points 97-122) or an ASCII digit (48-57). -/
def isSlugChar (c : Char) : Bool :=
  (decide (97 ≤ c.toNat) && decide (c.toNat ≤ 122)) ||
  (decide (48 ≤ c.toNat) && decide (c.toNat ≤ 57))

/-- Per-character model of `String.prototype.toLowerCase()`: ASCII
uppercase letters (65-90) are shifted down by 32; everything that is not
an ASCII uppercase letter either lowercases outside `[a-z0-9]` or is
unchanged, and in both cases the later `[^a-z0-9]+` replacement makes the
distinction irrelevant, so other characters are modelled as fixed. -/
def jsToLowerChar (c : Char) : Char :=
  if 65 ≤ c.toNat && c.toNat ≤ 90 then Char.ofNat (c.toNat + 32) else c

/-- A Unicode combining mark in the range `̀`-`ͯ`. -/
def isCombiningMark (c : Char) : Bool :=
  decide (0x300 ≤ c.toNat) && decide (c.toNat ≤ 0x36f)

/-- A character that can appear in a slug: `[a-z0-9]` or the hyphen. -/
def slugOutChar (c : Char) : Bool := isSlugChar c || c == '-'

/-- Worker for `replace(/[^a-z0-9]+/g, '-')`: the flag records whether we
are inside a run of replaced characters (whose first character already
emitted the single `'-'`). -/
def collapseGo : Bool → List Char → List Char
  | _, [] => []
  | inRun, c :: cs =>
    if isSlugChar c then c :: collapseGo false cs
    else if inRun then collapseGo true cs
    else '-' :: collapseGo true cs

/-- Models `replace(/[^a-z0-9]+/g, '-')`. -/
def collapseNonAlnum (cs : List Char) : List Char := collapseGo false cs

/-- Drops a single leading hyphen, as the `^-` alternative of
`/(^-|-$)+/g` matches at most one leading hyphen. -/
def dropLeadingHyphen : List Char → List Char
  | [] => []
  | c :: rest => if c == '-' then rest else c :: rest

/-- Drops a single trailing hyphen, the `-$` alternative of the same
regex. -/
def dropTrailingHyphen (cs : List Char) : List Char :=
  (dropLeadingHyphen cs.reverse).reverse

/-- Models `replace(/(^-|-$)+/g, '')`: on inputs produced by
`collapseNonAlnum` (no adjacent hyphens) this removes exactly one leading
and one trailing hyphen when present, which is what the regex does. -/
def trimEdgeHyphens (cs : List Char) : List Char :=
  dropTrailingHyphen (dropLeadingHyphen cs)

/-- The slugify pipeline, parameterised by the model of the
`normalize('NFKD')` builtin so that theorems can be stated for every
normalisation function. -/
def slugifyWith (normalize : List Char → List Char) (s : String) : String :=
  String.mk (trimEdgeHyphens (collapseNonAlnum
    ((normalize (s.data.map jsToLowerChar)).filter (fun c => !isCombiningMark c))))

/-- Model of the `String.prototype.normalize('NFKD')` builtin.  The only
property of NFKD this development relies on is that it is the identity on
the ASCII alphabet `[a-z0-9-]` of slug outputs, which holds of the real
Unicode NFKD; theorems that need more are stated over an arbitrary
normalisation function via `slugifyWith`. -/
def nfkdModel : List Char → List Char := id

/-- The `slugify` function of product-import.service.ts. -/
def slugify (s : String) : String := slugifyWith nfkdModel s

/-! ### Data model of the importer

CSV records, the per-row result items and summary
(`ImportProductsResultItem` / `ImportProductsSummary`), and the slice of
the Vendure store the importer touches (products with their translations,
variants, collections, product-collection links). -/

/-- A parsed CSV record (or a Shopee row mapped by
`mapShopeePayloadToRows`): a finite map from column names to string
values; an absent key models an `undefined` field. -/
structure Rec where
  fields : List (String × String)
deriving DecidableEq

/-- Field access `rec.key`. -/
def Rec.get (r : Rec) (k : String) : Option String :=
  (r.fields.find? (fun kv => kv.1 == k)).map (fun kv => kv.2)

/-- The row/sku/name/slug header fields computed at the top of each loop
iteration (`base` at lines 89-94 / 446-451). -/
structure BaseFields where
  row : Nat
  sku : Option String
  productName : Option String
  productSlug : Option String
deriving DecidableEq

/-- Computes `base` of one loop iteration. -/
def recBase (row : Nat) (r : Rec) : BaseFields :=
  { row := row
    sku := (firstSome [r.get "sku", r.get "SKU", r.get "Sku"]).map jsTrim
    productName := (firstSome [r.get "name", r.get "productName", r.get "product name"]).map jsTrim
    productSlug := (firstSome [r.get "slug", r.get "product slug"]).map jsTrim }

/-- The four possible per-row statuses of `ImportProductsResultItem`. -/
inductive RowStatus where
  | created
  | updated
  | skipped
  | failed
deriving DecidableEq

/-- The `ImportProductsResultItem` shape.  Identifier-valued fields are modelled as
the numeric ids themselves (the source stringifies them). -/
structure Item where
  row : Nat
  sku : Option String
  productName : Option String
  productSlug : Option String
  status : RowStatus
  message : Option String
  productId : Option Nat
  variantId : Option Nat
  listPrice : Option Int
  availableStock : Option JsNum
  description : Option String
  assets : Option (List String)
  variantAssets : Option (List String)
  collectionSlugs : Option (List String)
deriving DecidableEq

/-- An item `{ ...base, status, message }` with all other fields
`undefined`. -/
def baseItem (b : BaseFields) (st : RowStatus) (msg : Option String) : Item :=
  { row := b.row, sku := b.sku, productName := b.productName
    productSlug := b.productSlug, status := st, message := msg
    productId := none, variantId := none, listPrice := none
    availableStock := none, description := none, assets := none
    variantAssets := none, collectionSlugs := none }

/-- The four per-row counters accumulated by the loop. -/
structure Counters where
  created : Nat
  updated : Nat
  skipped : Nat
  failed : Nat
deriving DecidableEq

def Counters.zero : Counters := ⟨0, 0, 0, 0⟩

def Counters.add (a b : Counters) : Counters :=
  ⟨a.created + b.created, a.updated + b.updated, a.skipped + b.skipped, a.failed + b.failed⟩

/-- The sum `created + updated + skipped + failed`. -/
def Counters.totalOf (c : Counters) : Nat := c.created + c.updated + c.skipped + c.failed

/-- The `ImportProductsSummary` shape. -/
structure Summary where
  total : Nat
  created : Nat
  updated : Nat
  skipped : Nat
  failed : Nat
deriving DecidableEq

/-- The `ImportProductsResult` shape. -/
structure ImportResult where
  items : List Item
  summary : Summary
deriving DecidableEq

/-- A product translation row (`languageCode`, `name`, `slug`). -/
structure Translation where
  lang : String
  name : String
  slug : String
deriving DecidableEq

/-- The slice of a Vendure `Product` the importer reads or writes. -/
structure ProductRow where
  id : Nat
  enabled : Bool
  translations : List Translation
  assetIds : List Nat
  featuredAssetId : Option Nat
deriving DecidableEq

/-- The slice of a Vendure `ProductVariant` the importer reads or
writes. -/
structure VariantRow where
  id : Nat
  productId : Nat
  enabled : Bool
  sku : String
  name : String
  price : Option Int
  listPrice : Option Int
  taxCategoryId : Option String
  assetIds : List Nat
  featuredAssetId : Option Nat
deriving DecidableEq

/-- A collection with its translated names. -/
structure CollectionRow where
  id : Nat
  names : List String
deriving DecidableEq

/-- A tax category as returned by `taxCategoryService.findAll`. -/
structure TaxCategory where
  id : String
  name : String
deriving DecidableEq

/-- The database state the importer touches.  `nextId` models the id
sequence of newly created entities; `collectionLinks` the
product-collection join table. -/
structure Store where
  products : List ProductRow
  variants : List VariantRow
  collections : List CollectionRow
  collectionLinks : List (Nat × Nat)
  nextId : Nat
deriving DecidableEq

/-- The identity-relevant projection of a product: id, enabled flag and
translations (asset attachments may legitimately change later). -/
def productKey (p : ProductRow) : Nat × Bool × List Translation :=
  (p.id, p.enabled, p.translations)

/-- The identity-relevant projection of a variant: SKU and owning
product. -/
def variantKey (v : VariantRow) : String × Nat := (v.sku, v.productId)

/-- One service/repository call made during the import, for the
operation trace. -/
inductive Op where
  | taxFindAll
  | productLookup (slug : String)
  | productCreate (name slug : String)
  | variantLookup (sku : String)
  | variantCreate (sku : String) (productId : Nat)
  | assetFetch (url : String)
  | productFindOne (id : Nat)
  | productUpdate (id : Nat)
  | variantUpdate (id : Nat)
  | collectionFindAll
  | collectionAdd (productId : Nat) (collectionIds : List Nat)
deriving DecidableEq

/-- Whether an operation creates or updates store state (as opposed to a
pure read). -/
def Op.isMutating : Op → Bool
  | .productCreate _ _ => true
  | .variantCreate _ _ => true
  | .assetFetch _ => true
  | .productUpdate _ => true
  | .variantUpdate _ => true
  | .collectionAdd _ _ => true
  | _ => false

/-- The request environment: the tax categories visible to
`taxCategoryService.findAll`, the combined effect of
`fetchUrlAsReadable` + `assetService.createFromFileStream` for one URL
(`.ok id` = created asset id, `.error msg` = thrown error or error result
without id), and `ctx.languageCode`. -/
structure Env where
  taxCategories : List TaxCategory
  fetchAsset : String → Except String Nat
  languageCode : String

/-- The `opts` argument of `handleUpload` / `processRecords`; the `encoding` option
only feeds the external CSV parser and is not modelled. -/
structure UploadOpts where
  dryRun : Option Bool
deriving DecidableEq

/-! ### Per-record processing

`handleUpload` (lines 86-361) and `processRecords` (lines 443-709) run
the same record-processing body; the source comment on `processRecords`
calls it "Factorized logic from handleUpload loop".  The two differ only
in the dry-run message ('Dry run (would create new product/variant)'
versus 'Dry run') and in the extra preview fields the final 'created'
item carries (lines 345-356 versus 697-703), captured by `Flavor`. -/

/-- The two textual/item-shape variants of the shared record-processing
body. -/
structure Flavor where
  dryMsg : String
  fullFinalItem : Bool
deriving DecidableEq

/-- The `handleUpload` variant of the body. -/
def huFlavor : Flavor := ⟨"Dry run (would create new product/variant)", true⟩

/-- The `processRecords` variant of the body. -/
def prFlavor : Flavor := ⟨"Dry run", false⟩

/-- Keys tried for the price column (`rec.price ?? rec['price (cent)'] ??
rec.Price`). -/
def priceKeys : List String := ["price", "price (cent)", "Price"]

/-- Keys tried for the listPrice column. -/
def listPriceKeys : List String := ["listPrice", "ListPrice", "list price", "List Price"]

/-- Parsing of the price / listPrice columns (lines 105-122 / 461-476):
absent or empty is `none`; otherwise commas and whitespace are stripped,
`Number` is applied, a non-finite result throws `label ++ raw`, a finite
one is `Math.round`ed. -/
def parseMoneyField (r : Rec) (keys : List String) (label : String) :
    Except String (Option Int) :=
  match firstSome (keys.map r.get) with
  | none => .ok none
  | some raw =>
    if raw == "" then .ok none
    else
      match jsNumber (cleanNumeric raw) with
      | none => .error (label ++ raw)
      | some q => .ok (some (jsRound q))

/-- Tax category resolution (lines 124-135 / 478-489): a truthy `tax id`
column is used verbatim; otherwise a truthy `tax name` column is looked
up via `taxCategoryService.findAll`, throwing when absent.  Returns the
operations performed together with the outcome. -/
def resolveTax (taxCats : List TaxCategory) (r : Rec) :
    List Op × Except String (Option String) :=
  let taxName := (firstSome [r.get "taxCategory", r.get "taxCategoryName", r.get "tax name"]).map jsTrim
  let taxId := (firstSome [r.get "taxCategoryId", r.get "tax id"]).map jsTrim
  if optTruthy taxId then ([], .ok (some (taxId.getD "")))
  else if optTruthy taxName then
    let n := taxName.getD ""
    ([Op.taxFindAll],
      match taxCats.find? (fun t => t.name == n) with
      | some t => .ok (some t.id)
      | none => .error ("Tax category not found: " ++ n))
  else ([], .ok none)

/-- Models `String.prototype.split('|')` on the character list. -/
def splitPipeChars : List Char → List (List Char)
  | [] => [[]]
  | c :: rest =>
    let r := splitPipeChars rest
    if c == '|' then [] :: r
    else (c :: r.headD []) :: r.tail

/-- Models `col ? String(col).split('|').map(trim).filter(Boolean) : []`. -/
def splitPipeList (v : Option String) : List String :=
  match v with
  | none => []
  | some s =>
    (((splitPipeChars s.data).map (fun cs => jsTrim (String.mk cs))).filter
      (fun x => !(x == "")))

/-- The preview/extra columns computed for each record (lines 137-162,
and identically inside `processRecords`). -/
structure Extras where
  availableStock : Option JsNum
  description : Option String
  assetsList : List String
  variantAssetsList : List String
  collectionNames : List String
deriving DecidableEq

/-- Reads the extra columns of a record.  `availableStock` is `none` when
the column is absent or `Number` yields a non-finite value (both render
as `null` in items). -/
def recExtras (r : Rec) : Extras :=
  { availableStock :=
      match r.get "availableStock" with
      | none => none
      | some v => jsNumber v
    description := firstSome [r.get "description", r.get "Description"]
    assetsList := splitPipeList (firstTruthy
      [r.get "assets", r.get "Assets", r.get "productAssets", r.get "product assets"])
    variantAssetsList := splitPipeList (firstTruthy
      [r.get "variantAssets", r.get "variant assets"])
    collectionNames := splitPipeList (firstTruthy
      [r.get "collectionName", r.get "collections", r.get "collection name", r.get "collections"]) }

/-- The contribution of one record to the result: its pushed items, its
counter increments, the database state after it, and the service calls it
made. -/
structure RowResult where
  items : List Item
  delta : Counters
  store : Store
  ops : List Op

/-- Outcome of the outer `catch` (lines 357-360 / 705-708): one 'failed'
item carrying the exception's message, `failed++`.  All throwing steps
precede any store write, so the store is unchanged. -/
def failedResult (b : BaseFields) (st : Store) (e : String) (ops : List Op) : RowResult :=
  { items := [baseItem b .failed (some e)], delta := ⟨0, 0, 0, 1⟩, store := st, ops := ops }

/-- The dry-run branch (lines 164-178 / 491-529): counts as created,
touches nothing. -/
def dryRunResult (fl : Flavor) (b : BaseFields) (listPrice : Option Int)
    (ex : Extras) (st : Store) : RowResult :=
  { items := [{ baseItem b .created (some fl.dryMsg) with
        listPrice := listPrice
        availableStock := ex.availableStock
        description := ex.description
        assets := if ex.assetsList.isEmpty then none else some ex.assetsList
        variantAssets := if ex.variantAssetsList.isEmpty then none else some ex.variantAssetsList
        collectionSlugs := if ex.collectionNames.isEmpty then none
          else some (ex.collectionNames.map slugify) }]
    delta := ⟨1, 0, 0, 0⟩, store := st, ops := [] }

/-- Find-or-create of the product by translation slug (lines 180-197 /
532-548): the repository query matches any translation with the given
slug and `getOne` returns the first; otherwise `productService.create`
makes an enabled product with a single translation. -/
def findOrCreateProduct (env : Env) (st : Store) (slug name : String) :
    Nat × Store × List Op :=
  match st.products.find? (fun p => p.translations.any (fun t => t.slug == slug)) with
  | some p => (p.id, st, [Op.productLookup slug])
  | none =>
    let pid := st.nextId
    let lang := if env.languageCode == "" then "en" else env.languageCode
    (pid,
      { st with
          products := st.products ++
            [{ id := pid, enabled := true, translations := [⟨lang, name, slug⟩]
               assetIds := [], featuredAssetId := none }]
          nextId := st.nextId + 1 },
      [Op.productLookup slug, Op.productCreate name slug])

/-- Models `productVariantService.create` with one input row (lines 215-228 /
559-570). -/
def createVariantRow (_env : Env) (st : Store) (pid : Nat) (sku name : String)
    (price listPrice : Option Int) (taxCategoryId : Option String) : Nat × Store :=
  let vid := st.nextId
  (vid,
    { st with
        variants := st.variants ++
          [{ id := vid, productId := pid, enabled := true, sku := sku, name := name
             price := price, listPrice := listPrice, taxCategoryId := taxCategoryId
             assetIds := [], featuredAssetId := none }]
        nextId := st.nextId + 1 })

/-- The per-URL asset fetch-and-create loop (lines 235-253 / 582-600):
each URL is attempted in order; a failure pushes a 'failed' item
`label ++ url ++ ": " ++ message` without touching the counters; a
success collects the created asset id. -/
def importAssetUrls (env : Env) (b : BaseFields) (label : String) :
    List String → List Nat × List Item × List Op
  | [] => ([], [], [])
  | url :: rest =>
    let tail := importAssetUrls env b label rest
    match env.fetchAsset url with
    | .ok i => (i :: tail.1, tail.2.1, Op.assetFetch url :: tail.2.2)
    | .error e =>
      (tail.1,
        baseItem b .failed (some (label ++ url ++ ": " ++ e)) :: tail.2.1,
        Op.assetFetch url :: tail.2.2)

/-- Attaching freshly created assets to the product (lines 255-267 /
602-614): when at least one asset was created, the product's existing
asset ids are read and the merged list written back, the first merged id
becoming the featured asset. -/
def attachProductAssets (st : Store) (pid : Nat) (ids : List Nat) : Store × List Op :=
  if ids.isEmpty then (st, [])
  else
    let existing := ((st.products.find? (fun p => p.id == pid)).map (fun p => p.assetIds)).getD []
    let merged := existing ++ ids
    ({ st with
        products := st.products.map (fun p =>
          if p.id == pid then { p with assetIds := merged, featuredAssetId := merged.head? } else p) },
      [Op.productFindOne pid, Op.productUpdate pid])

/-- Attaching variant assets (lines 296-304 / 647-655): the variant's
asset ids are overwritten with the created ones. -/
def attachVariantAssets (st : Store) (vid : Nat) (ids : List Nat) : Store × List Op :=
  if ids.isEmpty then (st, [])
  else
    ({ st with
        variants := st.variants.map (fun v =>
          if v.id == vid then { v with assetIds := ids, featuredAssetId := ids.head? } else v) },
      [Op.variantUpdate vid])

/-- Matching collection names against the translated names of all
collections (lines 318-330 / 673-685): a missing name pushes a 'failed'
item, a found one collects the collection id. -/
def matchCollections (cols : List CollectionRow) (b : BaseFields) :
    List String → List Nat × List Item
  | [] => ([], [])
  | n :: rest =>
    let tail := matchCollections cols b rest
    match cols.find? (fun c => c.names.contains n) with
    | some c => (c.id :: tail.1, tail.2)
    | none =>
      (tail.1, baseItem b .failed (some ("Collection not found: " ++ n)) :: tail.2)

/-- The collection-assignment step (lines 308-342 / 659-695): when there
are names, all collections are loaded, matched, and the product related
to every matched id. -/
def collectionsStep (st : Store) (b : BaseFields) (pid : Nat) (names : List String) :
    List Item × Store × List Op :=
  if names.isEmpty then ([], st, [])
  else
    let m := matchCollections st.collections b names
    let addOps := if m.1.isEmpty then [] else [Op.collectionAdd pid m.1]
    (m.2,
      { st with collectionLinks := st.collectionLinks ++ m.1.map (fun cid => (pid, cid)) },
      Op.collectionFindAll :: addOps)

/-- The final 'created' item (lines 344-356 for `handleUpload`, 697-704
for `processRecords`). -/
def finalCreatedItem (fl : Flavor) (b : BaseFields) (pid vid : Nat)
    (listPrice : Option Int) (ex : Extras) : Item :=
  if fl.fullFinalItem then
    { baseItem b .created none with
        productId := some pid, variantId := some vid, listPrice := listPrice
        availableStock := ex.availableStock
        description := ex.description
        assets := if ex.assetsList.isEmpty then none else some ex.assetsList
        variantAssets := if ex.variantAssetsList.isEmpty then none else some ex.variantAssetsList
        collectionSlugs := if ex.collectionNames.isEmpty then none
          else some (ex.collectionNames.map slugify) }
  else
    { baseItem b .created none with
        productId := some pid, variantId := some vid, listPrice := listPrice }

/-- Computes `base.productSlug || this.slugify(name!)` (line 181 / 532): the
record's trimmed slug field when truthy, else the slugified name. -/
def productSlugOf (b : BaseFields) : String :=
  if optTruthy b.productSlug then b.productSlug.getD ""
  else slugify (b.productName.getD "")

/-- The non-dry-run tail of the body (lines 180-356 / 532-704): product
find-or-create, duplicate-SKU skip, variant creation, product and variant
asset import, collection assignment, final 'created' item. -/
def realRun (fl : Flavor) (env : Env) (st : Store) (b : BaseFields)
    (price listPrice : Option Int) (taxCategoryId : Option String) (ex : Extras) : RowResult :=
  let name := b.productName.getD ""
  let sku := b.sku.getD ""
  let slug := productSlugOf b
  let pst := findOrCreateProduct env st slug name
  let pid := pst.1
  let st1 := pst.2.1
  let ops1 := pst.2.2
  match st1.variants.find? (fun v => v.sku == sku) with
  | some exv =>
    { items := [{ baseItem b .skipped
          (some ("Variant with SKU " ++ sku ++ " already exists")) with
          productId := some exv.productId }]
      delta := ⟨0, 0, 1, 0⟩, store := st1, ops := ops1 ++ [Op.variantLookup sku] }
  | none =>
    let vst := createVariantRow env st1 pid sku name price listPrice taxCategoryId
    let vid := vst.1
    let st2 := vst.2
    let pa := importAssetUrls env b "Asset import failed for " ex.assetsList
    let att1 := attachProductAssets st2 pid pa.1
    let va := importAssetUrls env b "Variant asset import failed for " ex.variantAssetsList
    let att2 := attachVariantAssets att1.1 vid va.1
    let colRes := collectionsStep att2.1 b pid ex.collectionNames
    { items := pa.2.1 ++ va.2.1 ++ colRes.1 ++ [finalCreatedItem fl b pid vid listPrice ex]
      delta := ⟨1, 0, 0, 0⟩
      store := colRes.2.1
      ops := ops1 ++ [Op.variantLookup sku, Op.variantCreate sku pid] ++
        pa.2.2 ++ att1.2 ++ va.2.2 ++ att2.2 ++ colRes.2.2 }

/-- Prefixes already-performed operations onto a row result. -/
def withOps (ops : List Op) (r : RowResult) : RowResult :=
  { r with ops := ops ++ r.ops }

/-- One iteration of the record loop: the `try` body plus `catch`
(lines 96-360 of `handleUpload`; lines 452-708 of `processRecords`). -/
def processRecord (fl : Flavor) (env : Env) (dryRun : Bool) (st : Store)
    (row : Nat) (rec : Rec) : RowResult :=
  let b := recBase row rec
  if !(optTruthy b.sku && optTruthy b.productName) then
    { items := [baseItem b .skipped (some "Missing required fields: sku and name")]
      delta := ⟨0, 0, 1, 0⟩, store := st, ops := [] }
  else
    match parseMoneyField rec priceKeys "Invalid price: " with
    | .error e => failedResult b st e []
    | .ok price =>
      match parseMoneyField rec listPriceKeys "Invalid listPrice: " with
      | .error e => failedResult b st e []
      | .ok listPrice =>
        match resolveTax env.taxCategories rec with
        | (taxOps, .error e) => failedResult b st e taxOps
        | (taxOps, .ok taxCategoryId) =>
          let ex := recExtras rec
          if dryRun then withOps taxOps (dryRunResult fl b listPrice ex st)
          else withOps taxOps (realRun fl env st b price listPrice taxCategoryId ex)

/-- The first exception thrown while processing a record that reaches the
row-level `catch`, if any: an unparseable price or listPrice, or an
unknown tax-category name. -/
def rowError (env : Env) (rec : Rec) : Option String :=
  match parseMoneyField rec priceKeys "Invalid price: " with
  | .error e => some e
  | .ok _ =>
    match parseMoneyField rec listPriceKeys "Invalid listPrice: " with
    | .error e => some e
    | .ok _ =>
      match (resolveTax env.taxCategories rec).2 with
      | .error e => some e
      | .ok _ => none

/-! ### The record loop and the public entry points -/

/-- Accumulated output of the record loop: items, counters, final store,
and the row-tagged operation trace. -/
structure LoopOut where
  items : List Item
  cnt : Counters
  store : Store
  trace : List (Nat × Op)

/-- The sequential `for (const rec of records)` loop with `row++` at the
top of each iteration: each record is processed against the store left by
its predecessor, and its items, counter increments and operations are
appended in order. -/
def runLoop (fl : Flavor) (env : Env) (dryRun : Bool) :
    Store → Nat → List Rec → LoopOut
  | st, _, [] => ⟨[], Counters.zero, st, []⟩
  | st, row, rec :: rest =>
    let rr := processRecord fl env dryRun st (row + 1) rec
    let lo := runLoop fl env dryRun rr.store (row + 1) rest
    ⟨rr.items ++ lo.items, rr.delta.add lo.cnt, lo.store,
      rr.ops.map (fun o => (row + 1, o)) ++ lo.trace⟩

/-- The result of a full run: the GraphQL-visible `ImportProductsResult`,
the final store, and the trace of service calls. -/
structure RunOut where
  result : ImportResult
  store : Store
  trace : List (Nat × Op)

/-- Packs a loop output into the returned result (lines 363-366 /
711). -/
def mkRunOut (total : Nat) (lo : LoopOut) : RunOut :=
  ⟨⟨lo.items, ⟨total, lo.cnt.created, lo.cnt.updated, lo.cnt.skipped, lo.cnt.failed⟩⟩,
    lo.store, lo.trace⟩

/-- The `handleUpload` entry point (lines 61-367).  The upload resolution and
`parseCsv` are external effects; `records` is the list of records the
CSV parser produced.  `dryRun` defaults to `true` (line 84). -/
def handleUpload (env : Env) (opts : UploadOpts) (st : Store) (records : List Rec) : RunOut :=
  mkRunOut records.length (runLoop huFlavor env (opts.dryRun.getD true) st 0 records)

/-- The `processRecords` entry point (lines 430-712), the factorised body reused by the
Shopee import path; `dryRun` likewise defaults to `true` (line 437). -/
def processRecords (env : Env) (opts : UploadOpts) (st : Store) (records : List Rec) : RunOut :=
  mkRunOut records.length (runLoop prFlavor env (opts.dryRun.getD true) st 0 records)

/-- The loop of `importFromShopeeCurl` (lines 401-425): each mapped row
is handed as a singleton list to `processRecords`, whose counters are
merged and whose items are re-tagged with the outer row number.
`processRecords` is total here, so the surrounding `catch` never
fires. -/
def shopeeLoop (env : Env) (opts : UploadOpts) : Store → Nat → List Rec → LoopOut
  | st, _, [] => ⟨[], Counters.zero, st, []⟩
  | st, row, rec :: rest =>
    let r1 := processRecords env opts st [rec]
    let lo := shopeeLoop env opts r1.store (row + 1) rest
    ⟨r1.result.items.map (fun i => { i with row := row + 1 }) ++ lo.items,
      (Counters.add
        ⟨r1.result.summary.created, r1.result.summary.updated,
          r1.result.summary.skipped, r1.result.summary.failed⟩ lo.cnt),
      lo.store, r1.trace ++ lo.trace⟩

/-- The `importFromShopeeCurl` entry point (lines 374-428) after its external preamble: the
cURL parsing, the replayed fetch and `mapShopeePayloadToRows` are
external effects, and `records` is the list of rows the mapping
produced. -/
def importFromShopeeRows (env : Env) (opts : UploadOpts) (st : Store) (records : List Rec) : RunOut :=
  mkRunOut records.length (shopeeLoop env opts st 0 records)

/-! ### Concrete example inputs used by witnesses and counterexamples -/

/-- An environment with one tax category and a network on which every
asset URL fails with an HTTP 404. -/
def env0 : Env := ⟨[⟨"T1", "standard"⟩], fun _ => Except.error "HTTP 404", "en"⟩

/-- An empty store. -/
def st0 : Store := ⟨[], [], [], [], 10⟩

/-- A well-formed record. -/
def recGood : Rec := ⟨[("sku", "A1"), ("name", "Widget"), ("price", "1,250")]⟩

/-- A record whose price does not parse. -/
def recBadPrice : Rec := ⟨[("sku", "A1"), ("name", "Widget"), ("price", "abc")]⟩

/-- A record with no sku column. -/
def recNoSku : Rec := ⟨[("name", "Widget")]⟩

/-- A record with one product asset URL. -/
def recAssets : Rec := ⟨[("sku", "A1"), ("name", "Widget"), ("assets", "http://x/a.png")]⟩

/-- A store that already contains a variant with SKU `A1` on product 3. -/
def stDup : Store :=
  ⟨[], [⟨5, 3, true, "A1", "Old", none, none, none, [], none⟩], [], [], 10⟩

end VendureImport

namespace HeicConverter

/-! ### The HEIC upload converter (`src/src/lib/lib/heic-converter.ts`) -/

/-- The slice of a browser `File` the converter reads or builds: name,
MIME type, last-modified stamp, and an abstract token standing for the blob
contents. -/
structure JsFile where
  name : String
  mimeType : String
  lastModified : Nat
  blobId : Nat
deriving DecidableEq

/-- The `isHeicFile` check (lines 27-39): MIME type `image/heic`/`image/heif`
(case-insensitively), or a `.heic`/`.heif` file-name extension as
fallback. -/
def isHeicFile (f : JsFile) : Bool :=
  let t := f.mimeType.toLower
  if t == "image/heic" || t == "image/heif" then true
  else
    let n := f.name.toLower
    n.endsWith ".heic" || n.endsWith ".heif"

/-- Models `file.name.replace(/\.(heic|heif)$/i, '')`. -/
def stripHeicExt (n : String) : String :=
  let l := n.toLower
  if l.endsWith ".heic" || l.endsWith ".heif" then
    String.mk (n.data.take (n.data.length - 5))
  else n

/-- The `convertHeicFile` wrapper (lines 44-77), parameterised by the external
`heic2any` library call (`.ok blob` = converted blob, `.error msg` =
rejection).  On success the converted blob becomes a `File` with the
extension rewritten and the format as MIME type; on failure the error is
rethrown wrapped in the converter's message. -/
def convertHeicFile (heic2any : JsFile → Except String Nat) (format : String)
    (f : JsFile) : Except String JsFile :=
  match heic2any f with
  | .error e =>
    .error ("Failed to convert HEIC file \"" ++ f.name ++ "\": " ++ e)
  | .ok blob =>
    let ext := if format == "image/jpeg" then ".jpg" else ".png"
    .ok ⟨stripHeicExt f.name ++ ext, format, f.lastModified, blob⟩

/-- Result of `processFilesWithHeicConversion`: the kept files, the
`original -> converted` name pairs, and the `file -> error` pairs. -/
structure ProcessOut where
  processedFiles : List JsFile
  conversions : List (String × String)
  errors : List (String × String)
deriving DecidableEq

/-- The `processFilesWithHeicConversion` loop (lines 82-125): each file in order
is either converted (HEIC, conversion succeeds), kept as-is (non-HEIC),
or recorded as an error and dropped (HEIC, conversion fails). -/
def processFilesWithHeicConversion (heic2any : JsFile → Except String Nat)
    (format : String) : List JsFile → ProcessOut
  | [] => ⟨[], [], []⟩
  | f :: rest =>
    let out := processFilesWithHeicConversion heic2any format rest
    if isHeicFile f then
      match convertHeicFile heic2any format f with
      | .ok cf =>
        ⟨cf :: out.processedFiles, (f.name, cf.name) :: out.conversions, out.errors⟩
      | .error e => ⟨out.processedFiles, out.conversions, (f.name, e) :: out.errors⟩
    else ⟨f :: out.processedFiles, out.conversions, out.errors⟩

/-- The file a given input contributes to `processedFiles`, if any. -/
def processedOf (heic2any : JsFile → Except String Nat) (format : String)
    (f : JsFile) : Option JsFile :=
  if isHeicFile f then (convertHeicFile heic2any format f).toOption else some f

/-- The entry a given input contributes to `errors`, if any. -/
def errorOf (heic2any : JsFile → Except String Nat) (format : String)
    (f : JsFile) : Option (String × String) :=
  if isHeicFile f then
    match convertHeicFile heic2any format f with
    | .error e => some (f.name, e)
    | .ok _ => none
  else none

lemma processFiles_processed_eq (h2a : JsFile → Except String Nat) (format : String)
    (files : List JsFile) :
    (processFilesWithHeicConversion h2a format files).processedFiles
      = files.filterMap (processedOf h2a format) := by
  induction files with
  | nil => rfl
  | cons f rest ih =>
    simp only [processFilesWithHeicConversion, List.filterMap_cons]
    cases hh : isHeicFile f with
    | false => simpa [processedOf, hh] using ih
    | true =>
      cases hc : convertHeicFile h2a format f with
      | ok cf => simpa [processedOf, hh, hc, Except.toOption] using ih
      | error e => simpa [processedOf, hh, hc, Except.toOption] using ih

lemma processFiles_errors_eq (h2a : JsFile → Except String Nat) (format : String)
    (files : List JsFile) :
    (processFilesWithHeicConversion h2a format files).errors
      = files.filterMap (errorOf h2a format) := by
  induction files with
  | nil => rfl
  | cons f rest ih =>
    simp only [processFilesWithHeicConversion, List.filterMap_cons]
    cases hh : isHeicFile f with
    | false => simpa [errorOf, hh] using ih
    | true =>
      cases hc : convertHeicFile h2a format f with
      | ok cf => simpa [errorOf, hh, hc] using ih
      | error e => simpa [errorOf, hh, hc] using ih

lemma processFiles_length (h2a : JsFile → Except String Nat) (format : String)
    (files : List JsFile) :
    (processFilesWithHeicConversion h2a format files).processedFiles.length
        + (processFilesWithHeicConversion h2a format files).errors.length
      = files.length := by
  induction files with
  | nil => rfl
  | cons f rest ih =>
    simp only [processFilesWithHeicConversion, List.length_cons]
    cases hh : isHeicFile f with
    | false => simp only [hh, Bool.false_eq_true, if_false, List.length_cons]; omega
    | true =>
      simp only [hh, if_true]
      cases hc : convertHeicFile h2a format f with
      | ok cf => simp only [List.length_cons]; omega
      | error e => simp only [List.length_cons]; omega

lemma processFiles_nonheic_sublist (h2a : JsFile → Except String Nat) (format : String)
    (files : List JsFile) :
    List.Sublist (files.filter (fun f => !isHeicFile f))
      (processFilesWithHeicConversion h2a format files).processedFiles := by
  induction files with
  | nil => simp [processFilesWithHeicConversion]
  | cons f rest ih =>
    simp only [processFilesWithHeicConversion, List.filter_cons]
    cases hh : isHeicFile f with
    | false =>
      simp only [hh, Bool.not_false, if_true, Bool.false_eq_true, if_false]
      exact ih.cons₂ f
    | true =>
      simp only [hh, Bool.not_true, if_true, Bool.false_eq_true, if_false]
      cases hc : convertHeicFile h2a format f with
      | ok cf => exact ih.cons cf
      | error e => exact ih

/-- C10: `processFilesWithHeicConversion` accounts for each input file
exactly once: `|processedFiles| + |errors| = |files|`; every non-HEIC
file (as decided by `isHeicFile`) appears unchanged, in order, in
`processedFiles`; and each input contributes exactly its `processedOf` /
`errorOf` entry, so a file whose conversion fails appears only in
`errors` and never in `processedFiles`. -/
theorem c10_heic_accounting (h2a : JsFile → Except String Nat) (format : String)
    (files : List JsFile) :
    (processFilesWithHeicConversion h2a format files).processedFiles.length
        + (processFilesWithHeicConversion h2a format files).errors.length
      = files.length
    ∧ List.Sublist (files.filter (fun f => !isHeicFile f))
        (processFilesWithHeicConversion h2a format files).processedFiles
    ∧ (processFilesWithHeicConversion h2a format files).processedFiles
        = files.filterMap (processedOf h2a format)
    ∧ (processFilesWithHeicConversion h2a format files).errors
        = files.filterMap (errorOf h2a format) :=
  ⟨processFiles_length h2a format files, processFiles_nonheic_sublist h2a format files,
    processFiles_processed_eq h2a format files, processFiles_errors_eq h2a format files⟩

end HeicConverter

namespace VendureImport

/-! ### Properties of the slugify pipeline -/

lemma isSlugChar_ne_hyphen {c : Char} (h : isSlugChar c = true) : c ≠ '-' := by
  intro he
  subst he
  exact absurd h (by decide)

lemma slugOutChar_hyphen : slugOutChar '-' = true := by decide

lemma isSlugChar_slugOut {c : Char} (h : isSlugChar c = true) : slugOutChar c = true := by
  simp [slugOutChar, h]

lemma collapseGo_all (cs : List Char) :
    ∀ (b : Bool), ∀ c ∈ collapseGo b cs, slugOutChar c = true := by
  induction cs with
  | nil => intro b c hc; simp [collapseGo] at hc
  | cons x xs ih =>
    intro b c hc
    simp only [collapseGo] at hc
    by_cases hx : isSlugChar x = true
    · rw [if_pos hx] at hc
      rcases List.mem_cons.mp hc with h | h
      · subst h; exact isSlugChar_slugOut hx
      · exact ih false c h
    · rw [if_neg hx] at hc
      cases b with
      | true => exact ih true c hc
      | false =>
        rcases List.mem_cons.mp (by simpa using hc) with h | h
        · subst h; exact slugOutChar_hyphen
        · exact ih true c h

lemma collapseGo_true_head (cs : List Char) :
    ∀ c, (collapseGo true cs).head? = some c → isSlugChar c = true := by
  induction cs with
  | nil => intro c hc; simp [collapseGo] at hc
  | cons x xs ih =>
    intro c hc
    simp only [collapseGo] at hc
    by_cases hx : isSlugChar x = true
    · rw [if_pos hx] at hc
      simp only [List.head?_cons, Option.some.injEq] at hc
      subst hc; exact hx
    · rw [if_neg hx] at hc
      exact ih c (by simpa using hc)

lemma collapseGo_chain (cs : List Char) :
    ∀ (b : Bool), List.Chain' (fun a c => ¬(a = '-' ∧ c = '-')) (collapseGo b cs) := by
  induction cs with
  | nil => intro b; simp [collapseGo]
  | cons x xs ih =>
    intro b
    simp only [collapseGo]
    by_cases hx : isSlugChar x = true
    · rw [if_pos hx]
      refine List.chain'_cons'.mpr ⟨?_, ih false⟩
      rintro y _ ⟨h1, _⟩
      exact isSlugChar_ne_hyphen hx h1
    · rw [if_neg hx]
      cases b with
      | true => exact ih true
      | false =>
        simp only [Bool.false_eq_true, if_false]
        refine List.chain'_cons'.mpr ⟨?_, ih true⟩
        rintro y hy ⟨_, h2⟩
        exact isSlugChar_ne_hyphen (collapseGo_true_head xs y hy) h2

lemma dropLeadingHyphen_subset {l : List Char} : dropLeadingHyphen l ⊆ l := by
  cases l with
  | nil => simp [dropLeadingHyphen]
  | cons x xs =>
    simp only [dropLeadingHyphen]
    by_cases hx : (x == '-') = true
    · rw [if_pos hx]; exact List.subset_cons_self x xs
    · rw [if_neg hx]; exact List.Subset.refl _

lemma dropLeadingHyphen_chain {l : List Char}
    (h : List.Chain' (fun a c => ¬(a = '-' ∧ c = '-')) l) :
    List.Chain' (fun a c => ¬(a = '-' ∧ c = '-')) (dropLeadingHyphen l) := by
  cases l with
  | nil => simp [dropLeadingHyphen]
  | cons x xs =>
    simp only [dropLeadingHyphen]
    by_cases hx : (x == '-') = true
    · rw [if_pos hx]; exact (List.chain'_cons'.mp h).2
    · rw [if_neg hx]; exact h

lemma dropLeadingHyphen_head {l : List Char}
    (h : List.Chain' (fun a c => ¬(a = '-' ∧ c = '-')) l) :
    (dropLeadingHyphen l).head? ≠ some '-' := by
  cases l with
  | nil => simp [dropLeadingHyphen]
  | cons x xs =>
    simp only [dropLeadingHyphen]
    by_cases hx : (x == '-') = true
    · rw [if_pos hx]
      intro hc
      have hx' : x = '-' := by simpa using hx
      exact (List.chain'_cons'.mp h).1 '-' hc ⟨hx', rfl⟩
    · rw [if_neg hx]
      intro hc
      simp only [List.head?_cons, Option.some.injEq] at hc
      exact hx (by simp [hc])

lemma chain_hyphen_reverse {l : List Char}
    (h : List.Chain' (fun a c => ¬(a = '-' ∧ c = '-')) l) :
    List.Chain' (fun a c => ¬(a = '-' ∧ c = '-')) l.reverse := by
  rw [List.chain'_reverse]
  exact h.imp (fun _ _ hab hba => hab ⟨hba.2, hba.1⟩)

lemma trimEdgeHyphens_subset {l : List Char} : trimEdgeHyphens l ⊆ l := by
  intro c hc
  simp only [trimEdgeHyphens, dropTrailingHyphen] at hc
  have h1 := List.mem_reverse.mpr hc
  rw [List.reverse_reverse] at h1
  have h2 := dropLeadingHyphen_subset h1
  exact dropLeadingHyphen_subset (List.mem_reverse.mp h2)

lemma trimEdgeHyphens_chain {l : List Char}
    (h : List.Chain' (fun a c => ¬(a = '-' ∧ c = '-')) l) :
    List.Chain' (fun a c => ¬(a = '-' ∧ c = '-')) (trimEdgeHyphens l) := by
  unfold trimEdgeHyphens dropTrailingHyphen
  exact chain_hyphen_reverse (dropLeadingHyphen_chain (chain_hyphen_reverse (dropLeadingHyphen_chain h)))

lemma trimEdgeHyphens_getLast {l : List Char}
    (h : List.Chain' (fun a c => ¬(a = '-' ∧ c = '-')) l) :
    (trimEdgeHyphens l).getLast? ≠ some '-' := by
  unfold trimEdgeHyphens dropTrailingHyphen
  rw [List.getLast?_reverse]
  exact dropLeadingHyphen_head (chain_hyphen_reverse (dropLeadingHyphen_chain h))

lemma dropLeadingHyphen_cases (l : List Char) :
    dropLeadingHyphen l = l ∨ dropLeadingHyphen l = l.tail := by
  cases l with
  | nil => left; rfl
  | cons x xs =>
    simp only [dropLeadingHyphen]
    by_cases hx : (x == '-') = true
    · right; rw [if_pos hx]; rfl
    · left; rw [if_neg hx]

lemma head_ne_of_dropLast {l : List Char} (h : l.head? ≠ some '-') :
    l.dropLast.head? ≠ some '-' := by
  cases l with
  | nil => simp
  | cons x xs =>
    cases xs with
    | nil => simp
    | cons y ys =>
      simpa [List.dropLast] using h

lemma trimEdgeHyphens_head {l : List Char}
    (h : List.Chain' (fun a c => ¬(a = '-' ∧ c = '-')) l) :
    (trimEdgeHyphens l).head? ≠ some '-' := by
  have h1 : (dropLeadingHyphen l).head? ≠ some '-' := dropLeadingHyphen_head h
  unfold trimEdgeHyphens dropTrailingHyphen
  rcases dropLeadingHyphen_cases (dropLeadingHyphen l).reverse with h2 | h2
  · rw [h2, List.reverse_reverse]; exact h1
  · rw [h2, List.tail_reverse, List.reverse_reverse]
    exact head_ne_of_dropLast h1

lemma slugifyWith_data (normalize : List Char → List Char) (s : String) :
    (slugifyWith normalize s).data
      = trimEdgeHyphens (collapseNonAlnum
          ((normalize (s.data.map jsToLowerChar)).filter (fun c => !isCombiningMark c))) := rfl

lemma slugifyWith_all (normalize : List Char → List Char) (s : String) :
    (slugifyWith normalize s).data.all slugOutChar = true := by
  rw [slugifyWith_data, List.all_eq_true]
  intro c hc
  exact collapseGo_all _ false c (trimEdgeHyphens_subset hc)

lemma slugifyWith_chain (normalize : List Char → List Char) (s : String) :
    List.Chain' (fun a c => ¬(a = '-' ∧ c = '-')) (slugifyWith normalize s).data := by
  rw [slugifyWith_data]
  exact trimEdgeHyphens_chain (collapseGo_chain _ false)

lemma slugifyWith_head (normalize : List Char → List Char) (s : String) :
    (slugifyWith normalize s).data.head? ≠ some '-' := by
  rw [slugifyWith_data]
  exact trimEdgeHyphens_head (collapseGo_chain _ false)

lemma slugifyWith_getLast (normalize : List Char → List Char) (s : String) :
    (slugifyWith normalize s).data.getLast? ≠ some '-' := by
  rw [slugifyWith_data]
  exact trimEdgeHyphens_getLast (collapseGo_chain _ false)

lemma jsToLowerChar_fixed {c : Char} (h : slugOutChar c = true) : jsToLowerChar c = c := by
  simp only [slugOutChar, Bool.or_eq_true] at h
  rcases h with h1 | h1
  · simp only [isSlugChar, Bool.or_eq_true, Bool.and_eq_true, decide_eq_true_eq] at h1
    unfold jsToLowerChar
    rw [if_neg]
    simp only [Bool.and_eq_true, decide_eq_true_eq, not_and]
    omega
  · have : c = '-' := by simpa using h1
    subst this
    rfl

lemma combining_filter_fixed {l : List Char} (h : ∀ c ∈ l, slugOutChar c = true) :
    l.filter (fun c => !isCombiningMark c) = l := by
  rw [List.filter_eq_self]
  intro c hc
  have hs := h c hc
  simp only [slugOutChar, isSlugChar, Bool.or_eq_true, Bool.and_eq_true,
    decide_eq_true_eq, beq_iff_eq] at hs
  simp only [isCombiningMark, Bool.not_eq_true', Bool.and_eq_false_iff,
    decide_eq_false_iff_not, not_le]
  rcases hs with (h2 | h2) | h2
  · left; omega
  · left; omega
  · subst h2; left; decide

lemma collapseGo_fixed (l : List Char) :
    (∀ c ∈ l, slugOutChar c = true) →
    List.Chain' (fun a c => ¬(a = '-' ∧ c = '-')) l →
    ∀ (b : Bool), (b = true → l.head? ≠ some '-') → collapseGo b l = l := by
  induction l with
  | nil => intro _ _ b _; cases b <;> rfl
  | cons x xs ih =>
    intro hall hchain b hb
    simp only [collapseGo]
    by_cases hx : isSlugChar x = true
    · rw [if_pos hx]
      rw [ih (fun c hc => hall c (List.mem_cons_of_mem x hc)) (List.chain'_cons'.mp hchain).2
        false (fun h => nomatch h)]
    · rw [if_neg hx]
      have hx' : x = '-' := by
        have hm := hall x (List.mem_cons_self x xs)
        simp only [slugOutChar, Bool.or_eq_true, beq_iff_eq] at hm
        rcases hm with h1 | h1
        · exact absurd h1 hx
        · exact h1
      subst hx'
      cases b with
      | true =>
        exact absurd rfl (hb rfl)
      | false =>
        simp only [Bool.false_eq_true, if_false]
        rw [ih (fun c hc => hall c (List.mem_cons_of_mem _ hc)) (List.chain'_cons'.mp hchain).2
          true ?hd]
        case hd =>
          intro _ hc
          exact (List.chain'_cons'.mp hchain).1 '-' hc ⟨rfl, rfl⟩

lemma dropLeadingHyphen_fixed {l : List Char} (h : l.head? ≠ some '-') :
    dropLeadingHyphen l = l := by
  cases l with
  | nil => rfl
  | cons x xs =>
    simp only [dropLeadingHyphen]
    rw [if_neg]
    intro hx
    exact h (by simp [List.head?_cons, (beq_iff_eq.mp hx)])

lemma trimEdgeHyphens_fixed {l : List Char} (h1 : l.head? ≠ some '-')
    (h2 : l.getLast? ≠ some '-') : trimEdgeHyphens l = l := by
  unfold trimEdgeHyphens dropTrailingHyphen
  rw [dropLeadingHyphen_fixed h1, dropLeadingHyphen_fixed (by rwa [List.head?_reverse]),
    List.reverse_reverse]

lemma slugifyWith_idem (normalize : List Char → List Char)
    (hn : ∀ l : List Char, (∀ c ∈ l, slugOutChar c = true) → normalize l = l) (s : String) :
    slugifyWith normalize (slugifyWith normalize s) = slugifyWith normalize s := by
  have hall : ∀ c ∈ (slugifyWith normalize s).data, slugOutChar c = true :=
    List.all_eq_true.mp (slugifyWith_all normalize s)
  have hchain := slugifyWith_chain normalize s
  have hmap : (slugifyWith normalize s).data.map jsToLowerChar = (slugifyWith normalize s).data := by
    rw [List.map_congr_left (fun c hc => jsToLowerChar_fixed (hall c hc))]
    simp
  have heq : (slugifyWith normalize (slugifyWith normalize s)).data
      = (slugifyWith normalize s).data := by
    rw [slugifyWith_data normalize (slugifyWith normalize s), hmap,
      hn _ hall, combining_filter_fixed hall]
    show trimEdgeHyphens (collapseGo false (slugifyWith normalize s).data) = _
    rw [collapseGo_fixed _ hall hchain false (fun h => nomatch h)]
    exact trimEdgeHyphens_fixed (slugifyWith_head normalize s) (slugifyWith_getLast normalize s)
  exact congrArg String.mk heq

/-- C9: for every normalisation function, every `slugifyWith` output
contains only lowercase ASCII letters, digits and hyphens, never begins
or ends with a hyphen, and never contains two adjacent hyphens; for every
normalisation that fixes strings over that alphabet (as Unicode NFKD
does), `slugifyWith` is idempotent; in particular `slugify` is
idempotent. -/
theorem c9_slugify_properties :
    (∀ (normalize : List Char → List Char) (s : String),
        (slugifyWith normalize s).data.all slugOutChar = true
      ∧ (slugifyWith normalize s).data.head? ≠ some '-'
      ∧ (slugifyWith normalize s).data.getLast? ≠ some '-'
      ∧ List.Chain' (fun a c => ¬(a = '-' ∧ c = '-')) (slugifyWith normalize s).data)
    ∧ (∀ normalize : List Char → List Char,
        (∀ l : List Char, (∀ c ∈ l, slugOutChar c = true) → normalize l = l) →
        ∀ s : String, slugifyWith normalize (slugifyWith normalize s) = slugifyWith normalize s)
    ∧ (∀ s : String, slugify (slugify s) = slugify s) :=
  ⟨fun normalize s =>
      ⟨slugifyWith_all normalize s, slugifyWith_head normalize s,
        slugifyWith_getLast normalize s, slugifyWith_chain normalize s⟩,
    slugifyWith_idem,
    fun s => slugifyWith_idem nfkdModel (fun _ _ => rfl) s⟩

/-- Witness for C9 at a concrete input: `slugify` evaluates as expected
on ` Hello-- World! ` and the theorem's idempotence part applies to it,
with the normalisation hypothesis discharged for the identity model. -/
theorem c9_slugify_properties_witness :
    slugify " Hello-- World! " = "hello-world"
    ∧ slugify (slugify " Hello-- World! ") = slugify " Hello-- World! "
    ∧ (slugifyWith nfkdModel " Hello-- World! ").data.all slugOutChar = true :=
  ⟨by decide, c9_slugify_properties.2.2 " Hello-- World! ",
    (c9_slugify_properties.1 nfkdModel " Hello-- World! ").1⟩

/-! ### Counter conservation in the importer -/

lemma Counters.totalOf_add (a b : Counters) :
    (a.add b).totalOf = a.totalOf + b.totalOf := by
  simp only [Counters.add, Counters.totalOf]
  omega

lemma realRun_delta_totalOf (fl : Flavor) (env : Env) (st : Store) (b : BaseFields)
    (price listPrice : Option Int) (taxCategoryId : Option String) (ex : Extras) :
    (realRun fl env st b price listPrice taxCategoryId ex).delta.totalOf = 1 := by
  simp only [realRun]
  split <;> rfl

lemma processRecord_delta_totalOf (fl : Flavor) (env : Env) (dry : Bool) (st : Store)
    (row : Nat) (rec : Rec) :
    (processRecord fl env dry st row rec).delta.totalOf = 1 := by
  simp only [processRecord]
  split
  · rfl
  · cases hp : parseMoneyField rec priceKeys "Invalid price: " with
    | error e => rfl
    | ok price =>
      cases hlp : parseMoneyField rec listPriceKeys "Invalid listPrice: " with
      | error e => rfl
      | ok lp =>
        rcases ht : resolveTax env.taxCategories rec with ⟨taxOps, res⟩
        cases res with
        | error e => rfl
        | ok tc =>
          cases dry with
          | true => rfl
          | false =>
            simp only [Bool.false_eq_true, if_false, withOps]
            exact realRun_delta_totalOf fl env st _ price lp tc (recExtras rec)

lemma runLoop_totalOf (fl : Flavor) (env : Env) (dry : Bool) :
    ∀ (rs : List Rec) (st : Store) (row : Nat),
      (runLoop fl env dry st row rs).cnt.totalOf = rs.length := by
  intro rs
  induction rs with
  | nil => intro st row; rfl
  | cons r rest ih =>
    intro st row
    simp only [runLoop, List.length_cons]
    rw [Counters.totalOf_add, processRecord_delta_totalOf, ih]
    omega

lemma shopeeLoop_totalOf (env : Env) (opts : UploadOpts) :
    ∀ (rs : List Rec) (st : Store) (row : Nat),
      (shopeeLoop env opts st row rs).cnt.totalOf = rs.length := by
  intro rs
  induction rs with
  | nil => intro st row; rfl
  | cons r rest ih =>
    intro st row
    simp only [shopeeLoop, List.length_cons]
    rw [Counters.totalOf_add, ih]
    have h1 : (Counters.mk (processRecords env opts st [r]).result.summary.created
        (processRecords env opts st [r]).result.summary.updated
        (processRecords env opts st [r]).result.summary.skipped
        (processRecords env opts st [r]).result.summary.failed).totalOf = 1 :=
      runLoop_totalOf prFlavor env (opts.dryRun.getD true) [r] st 0
    rw [h1]
    omega

/-- C1: every CSV run of `handleUpload`, every run of the shared
`processRecords` body, and every Shopee run (`importFromShopeeRows`)
returns a summary with `total` equal to the number of parsed records and
`created + updated + skipped + failed = total`: each record contributes
to exactly one of the four per-row counters. -/
theorem c1_summary_conservation (env : Env) (opts : UploadOpts) (st : Store)
    (records : List Rec) :
    ((handleUpload env opts st records).result.summary.total = records.length
      ∧ (handleUpload env opts st records).result.summary.created
        + (handleUpload env opts st records).result.summary.updated
        + (handleUpload env opts st records).result.summary.skipped
        + (handleUpload env opts st records).result.summary.failed
        = (handleUpload env opts st records).result.summary.total)
    ∧ ((processRecords env opts st records).result.summary.total = records.length
      ∧ (processRecords env opts st records).result.summary.created
        + (processRecords env opts st records).result.summary.updated
        + (processRecords env opts st records).result.summary.skipped
        + (processRecords env opts st records).result.summary.failed
        = (processRecords env opts st records).result.summary.total)
    ∧ ((importFromShopeeRows env opts st records).result.summary.total = records.length
      ∧ (importFromShopeeRows env opts st records).result.summary.created
        + (importFromShopeeRows env opts st records).result.summary.updated
        + (importFromShopeeRows env opts st records).result.summary.skipped
        + (importFromShopeeRows env opts st records).result.summary.failed
        = (importFromShopeeRows env opts st records).result.summary.total) :=
  ⟨⟨rfl, runLoop_totalOf huFlavor env (opts.dryRun.getD true) records st 0⟩,
    ⟨rfl, runLoop_totalOf prFlavor env (opts.dryRun.getD true) records st 0⟩,
    ⟨rfl, shopeeLoop_totalOf env opts records st 0⟩⟩

/-! ### Per-record case analysis -/

lemma rowError_none_elim (env : Env) (rec : Rec) (he : rowError env rec = none) :
    ∃ price listPrice taxOps taxCategoryId,
      parseMoneyField rec priceKeys "Invalid price: " = .ok price
      ∧ parseMoneyField rec listPriceKeys "Invalid listPrice: " = .ok listPrice
      ∧ resolveTax env.taxCategories rec = (taxOps, .ok taxCategoryId) := by
  unfold rowError at he
  cases hp : parseMoneyField rec priceKeys "Invalid price: " with
  | error e => rw [hp] at he; exact Option.noConfusion he
  | ok p =>
    rw [hp] at he
    cases hlp : parseMoneyField rec listPriceKeys "Invalid listPrice: " with
    | error e => rw [hlp] at he; exact Option.noConfusion he
    | ok lp =>
      rw [hlp] at he
      rcases ht : resolveTax env.taxCategories rec with ⟨taxOps, res⟩
      cases res with
      | error e => rw [ht] at he; exact Option.noConfusion he
      | ok tc => exact ⟨p, lp, taxOps, tc, rfl, rfl, rfl⟩

lemma processRecord_rowError (fl : Flavor) (env : Env) (dry : Bool) (st : Store)
    (row : Nat) (rec : Rec) (e : String)
    (he : rowError env rec = some e)
    (hs : optTruthy (recBase row rec).sku = true)
    (hn : optTruthy (recBase row rec).productName = true) :
    (processRecord fl env dry st row rec).items
        = [baseItem (recBase row rec) RowStatus.failed (some e)]
    ∧ (processRecord fl env dry st row rec).delta = ⟨0, 0, 0, 1⟩
    ∧ (processRecord fl env dry st row rec).store = st := by
  unfold rowError at he
  simp only [processRecord, hs, hn, Bool.and_self, Bool.not_true, Bool.false_eq_true, if_false]
  cases hp : parseMoneyField rec priceKeys "Invalid price: " with
  | error e1 =>
    rw [hp] at he
    have he2 : some e1 = some e := he
    injection he2 with he3
    subst he3
    exact ⟨rfl, rfl, rfl⟩
  | ok p =>
    rw [hp] at he
    cases hlp : parseMoneyField rec listPriceKeys "Invalid listPrice: " with
    | error e1 =>
      rw [hlp] at he
      have he2 : some e1 = some e := he
      injection he2 with he3
      subst he3
      exact ⟨rfl, rfl, rfl⟩
    | ok lp =>
      rw [hlp] at he
      rcases ht : resolveTax env.taxCategories rec with ⟨taxOps, res⟩
      rw [ht] at he
      cases res with
      | error e1 =>
        have he2 : some e1 = some e := he
        injection he2 with he3
        subst he3
        exact ⟨rfl, rfl, rfl⟩
      | ok tc => exact Option.noConfusion he

lemma processRecord_ok (fl : Flavor) (env : Env) (dry : Bool) (st : Store)
    (row : Nat) (rec : Rec) (price listPrice : Option Int) (taxOps : List Op)
    (taxCategoryId : Option String)
    (hs : optTruthy (recBase row rec).sku = true)
    (hn : optTruthy (recBase row rec).productName = true)
    (hp : parseMoneyField rec priceKeys "Invalid price: " = .ok price)
    (hlp : parseMoneyField rec listPriceKeys "Invalid listPrice: " = .ok listPrice)
    (ht : resolveTax env.taxCategories rec = (taxOps, .ok taxCategoryId)) :
    processRecord fl env dry st row rec
      = if dry then
          withOps taxOps (dryRunResult fl (recBase row rec) listPrice (recExtras rec) st)
        else
          withOps taxOps
            (realRun fl env st (recBase row rec) price listPrice taxCategoryId (recExtras rec)) := by
  simp only [processRecord, hs, hn, Bool.and_self, Bool.not_true, Bool.false_eq_true, if_false,
    hp, hlp, ht]

/-- C2: a record whose processing throws (an unparseable price or
listPrice, or an unknown tax-category name) yields exactly one 'failed'
item carrying the exception's message, increments only the failed
counter, leaves the store untouched, and the loop simply appends that
record's contribution before processing the remaining records against the
same store — no retry, no alteration of earlier results. -/
theorem c2_exception_to_failed (fl : Flavor) (env : Env) (dry : Bool) (st : Store)
    (row : Nat) (rec : Rec) (e : String)
    (he : rowError env rec = some e)
    (hs : optTruthy (recBase row rec).sku = true)
    (hn : optTruthy (recBase row rec).productName = true) :
    (processRecord fl env dry st row rec).items
        = [baseItem (recBase row rec) RowStatus.failed (some e)]
    ∧ (processRecord fl env dry st row rec).delta = ⟨0, 0, 0, 1⟩
    ∧ (processRecord fl env dry st row rec).store = st
    ∧ (∀ (row0 : Nat) (rest : List Rec),
        (runLoop fl env dry st row0 (rec :: rest)).items
          = (processRecord fl env dry st (row0 + 1) rec).items
            ++ (runLoop fl env dry (processRecord fl env dry st (row0 + 1) rec).store
                (row0 + 1) rest).items
        ∧ (runLoop fl env dry st row0 (rec :: rest)).cnt
          = (processRecord fl env dry st (row0 + 1) rec).delta.add
              (runLoop fl env dry (processRecord fl env dry st (row0 + 1) rec).store
                (row0 + 1) rest).cnt) := by
  obtain ⟨h1, h2, h3⟩ := processRecord_rowError fl env dry st row rec e he hs hn
  exact ⟨h1, h2, h3, fun row0 rest => ⟨rfl, rfl⟩⟩

/-- Witness for C2: the concrete record with price `abc` fails with the
exception's message and only the failed counter moves. -/
theorem c2_exception_to_failed_witness :
    (processRecord huFlavor env0 true st0 1 recBadPrice).items
        = [baseItem (recBase 1 recBadPrice) RowStatus.failed (some "Invalid price: abc")]
    ∧ (processRecord huFlavor env0 true st0 1 recBadPrice).delta = ⟨0, 0, 0, 1⟩ :=
  ⟨(c2_exception_to_failed huFlavor env0 true st0 1 recBadPrice "Invalid price: abc"
      (by decide) (by decide) (by decide)).1,
    (c2_exception_to_failed huFlavor env0 true st0 1 recBadPrice "Invalid price: abc"
      (by decide) (by decide) (by decide)).2.1⟩

/-- C6: a record without a truthy sku or without a truthy name is
skipped with the exact message, increments only the skipped counter, and
performs no operation at all: the store is unchanged and the operation
trace of the record is empty. -/
theorem c6_missing_required_fields (fl : Flavor) (env : Env) (dry : Bool) (st : Store)
    (row : Nat) (rec : Rec)
    (h : optTruthy (recBase row rec).sku = false
      ∨ optTruthy (recBase row rec).productName = false) :
    processRecord fl env dry st row rec
      = { items := [baseItem (recBase row rec) RowStatus.skipped
            (some "Missing required fields: sku and name")]
          delta := ⟨0, 0, 1, 0⟩, store := st, ops := [] } := by
  simp only [processRecord]
  rcases h with h | h <;> simp [h]

/-- Witness for C6: the record without a sku column is skipped and
touches nothing. -/
theorem c6_missing_required_fields_witness :
    processRecord huFlavor env0 false st0 1 recNoSku
      = { items := [baseItem (recBase 1 recNoSku) RowStatus.skipped
            (some "Missing required fields: sku and name")]
          delta := ⟨0, 0, 1, 0⟩, store := st0, ops := [] } :=
  c6_missing_required_fields huFlavor env0 false st0 1 recNoSku (Or.inl (by decide))

/-! ### The duplicate-SKU skip -/

lemma findOrCreateProduct_variants (env : Env) (st : Store) (slug name : String) :
    (findOrCreateProduct env st slug name).2.1.variants = st.variants := by
  unfold findOrCreateProduct
  split <;> rfl

/-- C4: in a non-dry run, a record (with truthy sku and name, and no
exception) whose SKU matches an existing variant is skipped with the
exact message and the existing variant's product id, only the skipped
counter moves, and the store's variants are unchanged — no new variant is
created. -/
theorem c4_duplicate_sku_skipped (fl : Flavor) (env : Env) (st : Store) (row : Nat)
    (rec : Rec) (sku : String) (v : VariantRow)
    (hsku : (recBase row rec).sku = some sku)
    (hs : optTruthy (recBase row rec).sku = true)
    (hn : optTruthy (recBase row rec).productName = true)
    (he : rowError env rec = none)
    (hv : st.variants.find? (fun w => w.sku == sku) = some v) :
    (processRecord fl env false st row rec).items
        = [{ baseItem (recBase row rec) RowStatus.skipped
              (some ("Variant with SKU " ++ sku ++ " already exists")) with
              productId := some v.productId }]
    ∧ (processRecord fl env false st row rec).delta = ⟨0, 0, 1, 0⟩
    ∧ (processRecord fl env false st row rec).store.variants = st.variants := by
  obtain ⟨price, listPrice, taxOps, taxCategoryId, hp, hlp, ht⟩ := rowError_none_elim env rec he
  rw [processRecord_ok fl env false st row rec price listPrice taxOps taxCategoryId hs hn hp hlp ht]
  simp only [Bool.false_eq_true, if_false, withOps]
  simp only [realRun]
  rw [findOrCreateProduct_variants, hsku]
  simp only [Option.getD_some]
  rw [hv]
  exact ⟨rfl, rfl, findOrCreateProduct_variants env st _ _⟩

/-- Witness for C4: the concrete record with SKU `A1` against a store
already holding a variant with that SKU. -/
theorem c4_duplicate_sku_skipped_witness :
    (processRecord huFlavor env0 false stDup 1 recGood).items
        = [{ baseItem (recBase 1 recGood) RowStatus.skipped
              (some "Variant with SKU A1 already exists") with
              productId := some 3 }]
    ∧ (processRecord huFlavor env0 false stDup 1 recGood).delta = ⟨0, 0, 1, 0⟩
    ∧ (processRecord huFlavor env0 false stDup 1 recGood).store.variants = stDup.variants :=
  c4_duplicate_sku_skipped huFlavor env0 stDup 1 recGood "A1"
    ⟨5, 3, true, "A1", "Old", none, none, none, [], none⟩
    (by decide) (by decide) (by decide) (by decide) (by decide)

/-! ### Product reuse/creation by slug (C5) -/

lemma attachProductAssets_products_key (st : Store) (pid : Nat) (ids : List Nat) :
    (attachProductAssets st pid ids).1.products.map productKey
      = st.products.map productKey := by
  unfold attachProductAssets
  split
  · rfl
  · simp only [List.map_map]
    apply List.map_congr_left
    intro p _
    simp only [Function.comp_apply]
    split <;> rfl

lemma attachProductAssets_variants_eq (st : Store) (pid : Nat) (ids : List Nat) :
    (attachProductAssets st pid ids).1.variants = st.variants := by
  unfold attachProductAssets
  split <;> rfl

lemma attachVariantAssets_variants_key (st : Store) (vid : Nat) (ids : List Nat) :
    (attachVariantAssets st vid ids).1.variants.map variantKey
      = st.variants.map variantKey := by
  unfold attachVariantAssets
  split
  · rfl
  · simp only [List.map_map]
    apply List.map_congr_left
    intro v _
    simp only [Function.comp_apply]
    split <;> rfl

lemma attachVariantAssets_products_eq (st : Store) (vid : Nat) (ids : List Nat) :
    (attachVariantAssets st vid ids).1.products = st.products := by
  unfold attachVariantAssets
  split <;> rfl

lemma collectionsStep_products_eq (st : Store) (b : BaseFields) (pid : Nat)
    (names : List String) : (collectionsStep st b pid names).2.1.products = st.products := by
  unfold collectionsStep
  split <;> rfl

lemma collectionsStep_variants_eq (st : Store) (b : BaseFields) (pid : Nat)
    (names : List String) : (collectionsStep st b pid names).2.1.variants = st.variants := by
  unfold collectionsStep
  split <;> rfl

lemma findOrCreateProduct_found (env : Env) (st : Store) (slug name : String)
    (p : ProductRow)
    (h : st.products.find? (fun q => q.translations.any (fun t => t.slug == slug)) = some p) :
    findOrCreateProduct env st slug name = (p.id, st, [Op.productLookup slug]) := by
  unfold findOrCreateProduct
  rw [h]

lemma findOrCreateProduct_none (env : Env) (st : Store) (slug name : String)
    (h : st.products.find? (fun q => q.translations.any (fun t => t.slug == slug)) = none) :
    findOrCreateProduct env st slug name
      = (st.nextId,
          { st with
              products := st.products ++
                [{ id := st.nextId, enabled := true
                   translations := [⟨if env.languageCode == "" then "en" else env.languageCode,
                     name, slug⟩]
                   assetIds := [], featuredAssetId := none }]
              nextId := st.nextId + 1 },
          [Op.productLookup slug, Op.productCreate name slug]) := by
  unfold findOrCreateProduct
  rw [h]

/-- C5 (amended): in a non-dry run, for a record with truthy sku and
name whose price/listPrice/tax resolve and whose SKU is not already
taken, the product slug is the record's slug field when truthy and
`slugify name` otherwise; when a product whose translation carries that
slug exists, its id is reused and the products are unchanged (up to asset
attachments), otherwise a new enabled product with that name and slug and
id `st.nextId` is appended; in both cases exactly one new variant with
the record's SKU is appended, attached to that product id. -/
theorem c5_find_or_create_by_slug (fl : Flavor) (env : Env) (st : Store) (row : Nat)
    (rec : Rec) (sku name : String)
    (hsku : (recBase row rec).sku = some sku)
    (hs : optTruthy (recBase row rec).sku = true)
    (hname : (recBase row rec).productName = some name)
    (hn : optTruthy (recBase row rec).productName = true)
    (he : rowError env rec = none)
    (hnodup : st.variants.find? (fun w => w.sku == sku) = none) :
    productSlugOf (recBase row rec)
        = (if optTruthy (recBase row rec).productSlug
           then (recBase row rec).productSlug.getD "" else slugify name)
    ∧ (∀ p, st.products.find? (fun q => q.translations.any
          (fun t => t.slug == productSlugOf (recBase row rec))) = some p →
        (processRecord fl env false st row rec).store.products.map productKey
            = st.products.map productKey
        ∧ (processRecord fl env false st row rec).store.variants.map variantKey
            = st.variants.map variantKey ++ [(sku, p.id)])
    ∧ (st.products.find? (fun q => q.translations.any
          (fun t => t.slug == productSlugOf (recBase row rec))) = none →
        (processRecord fl env false st row rec).store.products.map productKey
            = st.products.map productKey
              ++ [(st.nextId, true,
                  [⟨if env.languageCode == "" then "en" else env.languageCode, name,
                    productSlugOf (recBase row rec)⟩])]
        ∧ (processRecord fl env false st row rec).store.variants.map variantKey
            = st.variants.map variantKey ++ [(sku, st.nextId)]) := by
  obtain ⟨price, listPrice, taxOps, taxCategoryId, hp, hlp, ht⟩ := rowError_none_elim env rec he
  refine ⟨by simp [productSlugOf, hname], ?_, ?_⟩
  · intro p hfound
    rw [processRecord_ok fl env false st row rec price listPrice taxOps taxCategoryId hs hn hp hlp ht]
    simp only [Bool.false_eq_true, if_false, withOps]
    simp only [realRun]
    rw [findOrCreateProduct_found env st _ _ p hfound]
    simp only
    rw [hsku]
    simp only [Option.getD_some]
    rw [hnodup]
    simp only [createVariantRow]
    constructor
    · rw [collectionsStep_products_eq, attachVariantAssets_products_eq,
        attachProductAssets_products_key]
    · rw [collectionsStep_variants_eq, attachVariantAssets_variants_key,
        attachProductAssets_variants_eq]
      simp [variantKey]
  · intro hnone
    rw [processRecord_ok fl env false st row rec price listPrice taxOps taxCategoryId hs hn hp hlp ht]
    simp only [Bool.false_eq_true, if_false, withOps]
    simp only [realRun]
    rw [findOrCreateProduct_none env st _ _ hnone]
    simp only
    rw [hsku]
    simp only [Option.getD_some]
    have hnodup2 : ({ st with
        products := st.products ++
          [{ id := st.nextId, enabled := true
             translations := [⟨if env.languageCode == "" then "en" else env.languageCode,
               name, productSlugOf (recBase row rec)⟩]
             assetIds := [], featuredAssetId := none }]
        nextId := st.nextId + 1 } : Store).variants.find? (fun w => w.sku == sku) = none :=
      hnodup
    rw [hnodup2]
    simp only [createVariantRow]
    constructor
    · rw [collectionsStep_products_eq, attachVariantAssets_products_eq,
        attachProductAssets_products_key]
      simp [productKey, hname]
    · rw [collectionsStep_variants_eq, attachVariantAssets_variants_key,
        attachProductAssets_variants_eq]
      simp [variantKey]

/-- Counterexample to C5 as stated: a non-dry-run record with both sku
and name whose SKU already exists is skipped — the store's variants are
unchanged, so no new variant is created, let alone attached, although the
claim promises one for every such record. -/
theorem c5_counterexample_duplicate_sku :
    optTruthy (recBase 1 recGood).sku = true
    ∧ optTruthy (recBase 1 recGood).productName = true
    ∧ (handleUpload env0 ⟨some false⟩ stDup [recGood]).store.variants = stDup.variants
    ∧ (handleUpload env0 ⟨some false⟩ stDup [recGood]).result.items.map (fun i => i.status)
        = [RowStatus.skipped] := by decide

/-- Witness for the amended C5: importing `Widget`/`A1` into the empty
store creates an enabled product with slug `widget` and attaches the new
variant to it. -/
theorem c5_find_or_create_by_slug_witness :
    (processRecord huFlavor env0 false st0 1 recGood).store.products.map productKey
        = st0.products.map productKey ++ [(10, true, [⟨"en", "Widget", "widget"⟩])]
    ∧ (processRecord huFlavor env0 false st0 1 recGood).store.variants.map variantKey
        = st0.variants.map variantKey ++ [("A1", 10)] :=
  (c5_find_or_create_by_slug huFlavor env0 st0 1 recGood "A1" "Widget"
      (by decide) (by decide) (by decide) (by decide) (by decide) (by decide)).2.2 (by decide)

/-! ### Dry-run default and frame (C8) -/

lemma resolveTax_ops_readonly (tcs : List TaxCategory) (rec : Rec) :
    (resolveTax tcs rec).1.all (fun o => !o.isMutating) = true := by
  simp only [resolveTax]
  split
  · rfl
  · split <;> rfl

lemma processRecord_dry_store (fl : Flavor) (env : Env) (st : Store) (row : Nat) (rec : Rec) :
    (processRecord fl env true st row rec).store = st := by
  simp only [processRecord]
  split
  · rfl
  · cases hp : parseMoneyField rec priceKeys "Invalid price: " with
    | error e => rfl
    | ok p =>
      cases hlp : parseMoneyField rec listPriceKeys "Invalid listPrice: " with
      | error e => rfl
      | ok lp =>
        rcases ht : resolveTax env.taxCategories rec with ⟨taxOps, res⟩
        cases res with
        | error e => rfl
        | ok tc => rfl

lemma processRecord_dry_ops (fl : Flavor) (env : Env) (st : Store) (row : Nat) (rec : Rec) :
    (processRecord fl env true st row rec).ops.all (fun o => !o.isMutating) = true := by
  simp only [processRecord]
  split
  · rfl
  · cases hp : parseMoneyField rec priceKeys "Invalid price: " with
    | error e => rfl
    | ok p =>
      cases hlp : parseMoneyField rec listPriceKeys "Invalid listPrice: " with
      | error e => rfl
      | ok lp =>
        rcases ht : resolveTax env.taxCategories rec with ⟨taxOps, res⟩
        have hro := resolveTax_ops_readonly env.taxCategories rec
        rw [ht] at hro
        cases res with
        | error e => exact hro
        | ok tc =>
          show ((withOps taxOps (dryRunResult fl _ lp (recExtras rec) st)).ops).all _ = true
          simp only [withOps, dryRunResult, List.append_nil]
          exact hro

lemma runLoop_dry_store (fl : Flavor) (env : Env) :
    ∀ (rs : List Rec) (st : Store) (row : Nat), (runLoop fl env true st row rs).store = st := by
  intro rs
  induction rs with
  | nil => intro st row; rfl
  | cons r rest ih =>
    intro st row
    simp only [runLoop]
    rw [ih, processRecord_dry_store]

lemma list_all_map {α β : Type} (f : α → β) (p : β → Bool) (l : List α) :
    (l.map f).all p = l.all (fun a => p (f a)) := by
  induction l with
  | nil => rfl
  | cons x xs ih => simp [ih]

lemma runLoop_dry_trace (fl : Flavor) (env : Env) :
    ∀ (rs : List Rec) (st : Store) (row : Nat),
      (runLoop fl env true st row rs).trace.all (fun p => !(p.2.isMutating)) = true := by
  intro rs
  induction rs with
  | nil => intro st row; rfl
  | cons r rest ih =>
    intro st row
    simp only [runLoop, List.all_append, Bool.and_eq_true]
    refine ⟨?_, ih _ _⟩
    rw [list_all_map]
    exact processRecord_dry_ops fl env st (row + 1) r

/-- C8 (amended): `dryRun` defaults to `true` when omitted; a dry run
leaves the store unchanged and its trace contains no create or update
call on any service; and every record with truthy sku and name whose
price/listPrice parse and whose tax category resolves is reported
'created' with the dry-run message.  (As stated the claim is false: a
record with sku and name but an unparseable price is reported 'failed'
even in a dry run — see the counterexample.) -/
theorem c8_amended_dry_run :
    (∀ (env : Env) (opts : UploadOpts) (st : Store) (records : List Rec),
        opts.dryRun = none →
        handleUpload env opts st records = handleUpload env ⟨some true⟩ st records)
    ∧ (∀ (env : Env) (st : Store) (records : List Rec),
        (handleUpload env ⟨some true⟩ st records).store = st
      ∧ (handleUpload env ⟨some true⟩ st records).trace.all
          (fun p => !(p.2.isMutating)) = true)
    ∧ (∀ (fl : Flavor) (env : Env) (st : Store) (row : Nat) (rec : Rec),
        optTruthy (recBase row rec).sku = true →
        optTruthy (recBase row rec).productName = true →
        rowError env rec = none →
        (processRecord fl env true st row rec).items.map (fun i => i.status)
            = [RowStatus.created]
        ∧ (processRecord fl env true st row rec).items.map (fun i => i.message)
            = [some fl.dryMsg]
        ∧ (processRecord fl env true st row rec).store = st) := by
  refine ⟨?_, ?_, ?_⟩
  · intro env opts st records h
    cases opts with
    | mk d => cases h; rfl
  · intro env st records
    exact ⟨runLoop_dry_store huFlavor env records st 0, runLoop_dry_trace huFlavor env records st 0⟩
  · intro fl env st row rec hs hn he
    obtain ⟨price, listPrice, taxOps, taxCategoryId, hp, hlp, ht⟩ := rowError_none_elim env rec he
    rw [processRecord_ok fl env true st row rec price listPrice taxOps taxCategoryId hs hn hp hlp ht]
    exact ⟨rfl, rfl, rfl⟩

/-- Counterexample to C8 as stated: in a dry run (defaulted `dryRun`),
the record with sku and name but price `abc` is reported 'failed', not
'created'. -/
theorem c8_counterexample_bad_price_dry :
    (handleUpload env0 ⟨none⟩ st0 [recBadPrice]).result.items.map (fun i => i.status)
        = [RowStatus.failed]
    ∧ (handleUpload env0 ⟨none⟩ st0 [recBadPrice]).result.summary.failed = 1 := by decide

/-- Witness for the amended C8 at concrete inputs. -/
theorem c8_amended_dry_run_witness :
    handleUpload env0 ⟨none⟩ st0 [recGood] = handleUpload env0 ⟨some true⟩ st0 [recGood]
    ∧ (handleUpload env0 ⟨some true⟩ st0 [recGood]).store = st0
    ∧ (processRecord huFlavor env0 true st0 1 recGood).items.map (fun i => i.status)
        = [RowStatus.created] :=
  ⟨c8_amended_dry_run.1 env0 ⟨none⟩ st0 [recGood] rfl,
    (c8_amended_dry_run.2.1 env0 st0 [recGood]).1,
    (c8_amended_dry_run.2.2 huFlavor env0 st0 1 recGood (by decide) (by decide) (by decide)).1⟩

/-! ### Row numbers of result items and the operation trace -/

lemma importAssetUrls_items_row (env : Env) (b : BaseFields) (label : String) :
    ∀ (urls : List String) (it : Item),
      it ∈ (importAssetUrls env b label urls).2.1 → it.row = b.row := by
  intro urls
  induction urls with
  | nil => intro it hit; simp [importAssetUrls] at hit
  | cons url rest ih =>
    intro it
    simp only [importAssetUrls]
    cases hf : env.fetchAsset url with
    | ok i => intro hit; exact ih it hit
    | error e =>
      intro hit
      rcases List.mem_cons.mp hit with h | h
      · subst h; rfl
      · exact ih it h

lemma matchCollections_items_row (cols : List CollectionRow) (b : BaseFields) :
    ∀ (ns : List String) (it : Item),
      it ∈ (matchCollections cols b ns).2 → it.row = b.row := by
  intro ns
  induction ns with
  | nil => intro it hit; simp [matchCollections] at hit
  | cons n rest ih =>
    intro it
    simp only [matchCollections]
    cases hf : cols.find? (fun c => c.names.contains n) with
    | some c => intro hit; exact ih it hit
    | none =>
      intro hit
      rcases List.mem_cons.mp hit with h | h
      · subst h; rfl
      · exact ih it h

lemma collectionsStep_items_row (st : Store) (b : BaseFields) (pid : Nat)
    (names : List String) :
    ∀ it ∈ (collectionsStep st b pid names).1, it.row = b.row := by
  intro it
  unfold collectionsStep
  split
  · intro hit; simp at hit
  · intro hit; exact matchCollections_items_row st.collections b names it hit

lemma finalCreatedItem_row (fl : Flavor) (b : BaseFields) (pid vid : Nat)
    (listPrice : Option Int) (ex : Extras) :
    (finalCreatedItem fl b pid vid listPrice ex).row = b.row := by
  unfold finalCreatedItem
  split <;> rfl

lemma realRun_items_row (fl : Flavor) (env : Env) (st : Store) (b : BaseFields)
    (price listPrice : Option Int) (tcid : Option String) (ex : Extras) :
    ∀ it ∈ (realRun fl env st b price listPrice tcid ex).items, it.row = b.row := by
  intro it
  simp only [realRun]
  split
  · intro hit
    rcases List.mem_singleton.mp hit with h
    subst h; rfl
  · intro hit
    simp only [List.mem_append] at hit
    rcases hit with ((h | h) | h) | h
    · exact importAssetUrls_items_row env b _ _ it h
    · exact importAssetUrls_items_row env b _ _ it h
    · exact collectionsStep_items_row _ b _ _ it h
    · rcases List.mem_singleton.mp h with h2
      subst h2
      exact finalCreatedItem_row fl b _ _ listPrice ex

lemma processRecord_items_row (fl : Flavor) (env : Env) (dry : Bool) (st : Store)
    (row : Nat) (rec : Rec) :
    ∀ it ∈ (processRecord fl env dry st row rec).items, it.row = row := by
  intro it
  simp only [processRecord]
  split
  · intro hit
    rcases List.mem_singleton.mp hit with h
    subst h; rfl
  · cases hp : parseMoneyField rec priceKeys "Invalid price: " with
    | error e =>
      intro hit
      rcases List.mem_singleton.mp hit with h
      subst h; rfl
    | ok p =>
      cases hlp : parseMoneyField rec listPriceKeys "Invalid listPrice: " with
      | error e =>
        intro hit
        rcases List.mem_singleton.mp hit with h
        subst h; rfl
      | ok lp =>
        rcases ht : resolveTax env.taxCategories rec with ⟨taxOps, res⟩
        cases res with
        | error e =>
          intro hit
          rcases List.mem_singleton.mp hit with h
          subst h; rfl
        | ok tc =>
          cases dry with
          | true =>
            intro hit
            rcases List.mem_singleton.mp hit with h
            subst h; rfl
          | false =>
            intro hit
            exact realRun_items_row fl env st _ p lp tc (recExtras rec) it hit

lemma processRecord_items_ne_nil (fl : Flavor) (env : Env) (dry : Bool) (st : Store)
    (row : Nat) (rec : Rec) :
    (processRecord fl env dry st row rec).items ≠ [] := by
  simp only [processRecord]
  split
  · simp
  · cases hp : parseMoneyField rec priceKeys "Invalid price: " with
    | error e => simp [failedResult]
    | ok p =>
      cases hlp : parseMoneyField rec listPriceKeys "Invalid listPrice: " with
      | error e => simp [failedResult]
      | ok lp =>
        rcases ht : resolveTax env.taxCategories rec with ⟨taxOps, res⟩
        cases res with
        | error e => simp [failedResult]
        | ok tc =>
          cases dry with
          | true => simp [withOps, dryRunResult]
          | false =>
            simp only [Bool.false_eq_true, if_false, withOps]
            simp only [realRun]
            split
            · simp
            · simp

lemma runLoop_items_row_bounds (fl : Flavor) (env : Env) (dry : Bool) :
    ∀ (rs : List Rec) (st : Store) (row : Nat) (it : Item),
      it ∈ (runLoop fl env dry st row rs).items →
      row + 1 ≤ it.row ∧ it.row ≤ row + rs.length := by
  intro rs
  induction rs with
  | nil => intro st row it hit; simp [runLoop] at hit
  | cons r rest ih =>
    intro st row it hit
    simp only [runLoop, List.mem_append] at hit
    simp only [List.length_cons]
    rcases hit with h | h
    · have hr := processRecord_items_row fl env dry st (row + 1) r it h
      omega
    · have hr := ih _ (row + 1) it h
      omega

lemma runLoop_trace_row_bounds (fl : Flavor) (env : Env) (dry : Bool) :
    ∀ (rs : List Rec) (st : Store) (row : Nat) (p : Nat × Op),
      p ∈ (runLoop fl env dry st row rs).trace →
      row + 1 ≤ p.1 ∧ p.1 ≤ row + rs.length := by
  intro rs
  induction rs with
  | nil => intro st row p hp; simp [runLoop] at hp
  | cons r rest ih =>
    intro st row p hp
    simp only [runLoop, List.mem_append] at hp
    simp only [List.length_cons]
    rcases hp with h | h
    · rcases List.mem_map.mp h with ⟨o, _, rfl⟩
      omega
    · have hr := ih _ (row + 1) p h
      omega

lemma pairwise_le_of_eq (l : List Nat) (c : Nat) (h : ∀ x ∈ l, x = c) :
    l.Pairwise (fun a b => a ≤ b) := by
  induction l with
  | nil => exact List.Pairwise.nil
  | cons x xs ih =>
    refine List.Pairwise.cons ?_ (ih (fun y hy => h y (List.mem_cons_of_mem _ hy)))
    intro y hy
    rw [h x (List.mem_cons_self x xs), h y (List.mem_cons_of_mem _ hy)]

lemma runLoop_items_sorted (fl : Flavor) (env : Env) (dry : Bool) :
    ∀ (rs : List Rec) (st : Store) (row : Nat),
      ((runLoop fl env dry st row rs).items.map (fun it => it.row)).Pairwise
        (fun a b => a ≤ b) := by
  intro rs
  induction rs with
  | nil => intro st row; exact List.Pairwise.nil
  | cons r rest ih =>
    intro st row
    simp only [runLoop, List.map_append]
    rw [List.pairwise_append]
    refine ⟨pairwise_le_of_eq _ (row + 1) ?_, ih _ _, ?_⟩
    · intro x hx
      rcases List.mem_map.mp hx with ⟨it, hit, rfl⟩
      exact processRecord_items_row fl env dry st (row + 1) r it hit
    · intro a ha b hb
      rcases List.mem_map.mp ha with ⟨it1, hit1, rfl⟩
      rcases List.mem_map.mp hb with ⟨it2, hit2, rfl⟩
      have h1 := processRecord_items_row fl env dry st (row + 1) r it1 hit1
      have h2 := (runLoop_items_row_bounds fl env dry rest _ (row + 1) it2 hit2).1
      omega

lemma runLoop_trace_sorted (fl : Flavor) (env : Env) (dry : Bool) :
    ∀ (rs : List Rec) (st : Store) (row : Nat),
      ((runLoop fl env dry st row rs).trace.map Prod.fst).Pairwise
        (fun a b => a ≤ b) := by
  intro rs
  induction rs with
  | nil => intro st row; exact List.Pairwise.nil
  | cons r rest ih =>
    intro st row
    simp only [runLoop, List.map_append]
    rw [List.pairwise_append]
    refine ⟨pairwise_le_of_eq _ (row + 1) ?_, ih _ _, ?_⟩
    · intro x hx
      rcases List.mem_map.mp hx with ⟨p, hp, rfl⟩
      rcases List.mem_map.mp hp with ⟨o, _, rfl⟩
      rfl
    · intro a ha b hb
      rcases List.mem_map.mp ha with ⟨p1, hp1, rfl⟩
      rcases List.mem_map.mp hp1 with ⟨o, _, rfl⟩
      rcases List.mem_map.mp hb with ⟨p2, hp2, rfl⟩
      have h2 := (runLoop_trace_row_bounds fl env dry rest _ (row + 1) p2 hp2).1
      omega

/-- C7: `handleUpload` processes records strictly sequentially: the
row-tagged operation trace is non-decreasing in its row tags (so all
operations of row `i`, including asset fetch-and-uploads, precede every
operation of row `i + 1`), the row fields of the result items are
non-decreasing, and all rows lie in `1 .. records.length`. -/
theorem c7_sequential_rows (env : Env) (opts : UploadOpts) (st : Store)
    (records : List Rec) :
    ((handleUpload env opts st records).trace.map Prod.fst).Pairwise (fun a b => a ≤ b)
    ∧ ((handleUpload env opts st records).result.items.map (fun it => it.row)).Pairwise
        (fun a b => a ≤ b)
    ∧ (handleUpload env opts st records).result.items.all
        (fun it => decide (1 ≤ it.row) && decide (it.row ≤ records.length)) = true
    ∧ (handleUpload env opts st records).trace.all
        (fun p => decide (1 ≤ p.1) && decide (p.1 ≤ records.length)) = true := by
  refine ⟨runLoop_trace_sorted huFlavor env _ records st 0,
    runLoop_items_sorted huFlavor env _ records st 0, ?_, ?_⟩
  · rw [List.all_eq_true]
    intro it hit
    have h := runLoop_items_row_bounds huFlavor env _ records st 0 it hit
    simp only [Bool.and_eq_true, decide_eq_true_eq]
    omega
  · rw [List.all_eq_true]
    intro p hp
    have h := runLoop_trace_row_bounds huFlavor env _ records st 0 p hp
    simp only [Bool.and_eq_true, decide_eq_true_eq]
    omega

/-! ### One-entry-per-row (C3) -/

/-- Counterexample to C3 as stated: in a non-dry run where the single
record's asset URL fails to import, the result contains two entries with
row 1 (the per-URL 'failed' entry and the final 'created' entry), not
exactly one. -/
theorem c3_counterexample_extra_asset_item :
    (handleUpload env0 ⟨some false⟩ st0 [recAssets]).result.items.countP
        (fun it => it.row == 1) = 2
    ∧ ¬((handleUpload env0 ⟨some false⟩ st0 [recAssets]).result.items.countP
        (fun it => it.row == 1) = 1) := by decide

lemma runLoop_countP_row (fl : Flavor) (env : Env) (dry : Bool) :
    ∀ (rs : List Rec) (st : Store) (row : Nat) (i : Nat), i < rs.length →
      1 ≤ (runLoop fl env dry st row rs).items.countP (fun it => it.row == row + i + 1) := by
  intro rs
  induction rs with
  | nil => intro st row i h; exact absurd h (Nat.not_lt_zero i)
  | cons r rest ih =>
    intro st row i h
    simp only [runLoop, List.countP_append]
    cases i with
    | zero =>
      have h1 := processRecord_items_ne_nil fl env dry st (row + 1) r
      have h2 : (processRecord fl env dry st (row + 1) r).items.countP
          (fun it => it.row == row + 0 + 1)
          = (processRecord fl env dry st (row + 1) r).items.length := by
        rw [List.countP_eq_length]
        intro a ha
        have := processRecord_items_row fl env dry st (row + 1) r a ha
        simp [this]
      have h3 := List.length_pos.mpr h1
      omega
    | succ j =>
      have hj : j < rest.length := by
        simp only [List.length_cons] at h
        omega
      have h1 := ih (processRecord fl env dry st (row + 1) r).store (row + 1) j hj
      have harith : row + (j + 1) + 1 = row + 1 + j + 1 := by omega
      rw [harith]
      exact le_trans h1 (Nat.le_add_left _ _)

lemma importAssetUrls_items_failed (env : Env) (b : BaseFields) (label : String) :
    ∀ (urls : List String) (it : Item),
      it ∈ (importAssetUrls env b label urls).2.1 →
      it.status = RowStatus.failed
      ∧ ∃ url e, it.message = some (label ++ url ++ ": " ++ e) := by
  intro urls
  induction urls with
  | nil => intro it hit; simp [importAssetUrls] at hit
  | cons url rest ih =>
    intro it
    simp only [importAssetUrls]
    cases hf : env.fetchAsset url with
    | ok i => intro hit; exact ih it hit
    | error e =>
      intro hit
      rcases List.mem_cons.mp hit with h | h
      · subst h; exact ⟨rfl, url, e, rfl⟩
      · exact ih it h

lemma matchCollections_items_failed (cols : List CollectionRow) (b : BaseFields) :
    ∀ (ns : List String) (it : Item),
      it ∈ (matchCollections cols b ns).2 →
      it.status = RowStatus.failed
      ∧ ∃ n, it.message = some ("Collection not found: " ++ n) := by
  intro ns
  induction ns with
  | nil => intro it hit; simp [matchCollections] at hit
  | cons n rest ih =>
    intro it
    simp only [matchCollections]
    cases hf : cols.find? (fun c => c.names.contains n) with
    | some c => intro hit; exact ih it hit
    | none =>
      intro hit
      rcases List.mem_cons.mp hit with h | h
      · subst h; exact ⟨rfl, n, rfl⟩
      · exact ih it h

lemma collectionsStep_items_failed (st : Store) (b : BaseFields) (pid : Nat)
    (names : List String) :
    ∀ it ∈ (collectionsStep st b pid names).1,
      it.status = RowStatus.failed
      ∧ ∃ n, it.message = some ("Collection not found: " ++ n) := by
  intro it
  unfold collectionsStep
  split
  · intro hit; simp at hit
  · intro hit; exact matchCollections_items_failed st.collections b names it hit

lemma realRun_items_structure (fl : Flavor) (env : Env) (st : Store) (b : BaseFields)
    (price listPrice : Option Int) (tcid : Option String) (ex : Extras) :
    ∃ mid last, (realRun fl env st b price listPrice tcid ex).items = mid ++ [last]
      ∧ ∀ it ∈ mid, it.status = RowStatus.failed
        ∧ ((∃ url e, it.message = some ("Asset import failed for " ++ url ++ ": " ++ e))
          ∨ (∃ url e, it.message
              = some ("Variant asset import failed for " ++ url ++ ": " ++ e))
          ∨ (∃ n, it.message = some ("Collection not found: " ++ n))) := by
  simp only [realRun]
  split
  · exact ⟨[], _, rfl, by simp⟩
  · refine ⟨_, _, rfl, ?_⟩
    intro it hit
    rcases List.mem_append.mp hit with h | h
    · rcases List.mem_append.mp h with h | h
      · obtain ⟨h1, url, e, h2⟩ :=
          importAssetUrls_items_failed env b _ ex.assetsList it h
        exact ⟨h1, Or.inl ⟨url, e, h2⟩⟩
      · obtain ⟨h1, url, e, h2⟩ :=
          importAssetUrls_items_failed env b _ ex.variantAssetsList it h
        exact ⟨h1, Or.inr (Or.inl ⟨url, e, h2⟩)⟩
    · obtain ⟨h1, n, h2⟩ := collectionsStep_items_failed _ b _ _ it h
      exact ⟨h1, Or.inr (Or.inr ⟨n, h2⟩)⟩

lemma processRecord_items_structure (fl : Flavor) (env : Env) (dry : Bool) (st : Store)
    (row : Nat) (rec : Rec) :
    ∃ mid last, (processRecord fl env dry st row rec).items = mid ++ [last]
      ∧ ∀ it ∈ mid, it.status = RowStatus.failed
        ∧ ((∃ url e, it.message = some ("Asset import failed for " ++ url ++ ": " ++ e))
          ∨ (∃ url e, it.message
              = some ("Variant asset import failed for " ++ url ++ ": " ++ e))
          ∨ (∃ n, it.message = some ("Collection not found: " ++ n))) := by
  simp only [processRecord]
  split
  · exact ⟨[], _, rfl, by simp⟩
  · cases hp : parseMoneyField rec priceKeys "Invalid price: " with
    | error e => exact ⟨[], _, rfl, by simp⟩
    | ok p =>
      cases hlp : parseMoneyField rec listPriceKeys "Invalid listPrice: " with
      | error e => exact ⟨[], _, rfl, by simp⟩
      | ok lp =>
        rcases ht : resolveTax env.taxCategories rec with ⟨taxOps, res⟩
        cases res with
        | error e => exact ⟨[], _, rfl, by simp⟩
        | ok tc =>
          cases dry with
          | true => exact ⟨[], _, rfl, by simp⟩
          | false =>
            exact realRun_items_structure fl env st (recBase row rec) p lp tc (recExtras rec)

/-- C3 (amended): every entry of a record carries that record's row
number and every record contributes at least one entry to the
`handleUpload` result; a record's entries are zero or more 'failed'
entries — each a per-URL asset-import failure or a missing-collection
failure — followed by exactly one final entry, so 'exactly one entry per
row' fails only when such failure entries precede the final one; and a
record whose processing throws contributes exactly one entry, with
status 'failed'. -/
theorem c3_amended_row_entries :
    (∀ (env : Env) (opts : UploadOpts) (st : Store) (records : List Rec) (i : Nat),
        i < records.length →
        1 ≤ (handleUpload env opts st records).result.items.countP
          (fun it => it.row == i + 1))
    ∧ (∀ (fl : Flavor) (env : Env) (dry : Bool) (st : Store) (row : Nat) (rec : Rec),
        (∀ it ∈ (processRecord fl env dry st row rec).items, it.row = row)
        ∧ ∃ mid last, (processRecord fl env dry st row rec).items = mid ++ [last]
          ∧ ∀ it ∈ mid, it.status = RowStatus.failed
            ∧ ((∃ url e, it.message
                  = some ("Asset import failed for " ++ url ++ ": " ++ e))
              ∨ (∃ url e, it.message
                  = some ("Variant asset import failed for " ++ url ++ ": " ++ e))
              ∨ (∃ n, it.message = some ("Collection not found: " ++ n))))
    ∧ (∀ (fl : Flavor) (env : Env) (dry : Bool) (st : Store) (row : Nat) (rec : Rec)
        (e : String),
        rowError env rec = some e →
        optTruthy (recBase row rec).sku = true →
        optTruthy (recBase row rec).productName = true →
        (processRecord fl env dry st row rec).items
          = [baseItem (recBase row rec) RowStatus.failed (some e)]) := by
  refine ⟨?_, ?_, ?_⟩
  · intro env opts st records i h
    have h1 := runLoop_countP_row huFlavor env (opts.dryRun.getD true) records st 0 i h
    simpa using h1
  · intro fl env dry st row rec
    exact ⟨processRecord_items_row fl env dry st row rec,
      processRecord_items_structure fl env dry st row rec⟩
  · intro fl env dry st row rec e he hs hn
    exact (processRecord_rowError fl env dry st row rec e he hs hn).1

/-- Witness for the amended C3 at concrete inputs: row coverage for a
one-record upload, row tags of the asset-failure run, and the single
'failed' entry of the throwing record. -/
theorem c3_amended_row_entries_witness :
    1 ≤ (handleUpload env0 ⟨some false⟩ st0 [recGood]).result.items.countP
        (fun it => it.row == 1)
    ∧ (∀ it ∈ (processRecord huFlavor env0 false st0 1 recAssets).items, it.row = 1)
    ∧ (processRecord huFlavor env0 false st0 1 recBadPrice).items
        = [baseItem (recBase 1 recBadPrice) RowStatus.failed (some "Invalid price: abc")] :=
  ⟨by
      have h := c3_amended_row_entries.1 env0 ⟨some false⟩ st0 [recGood] 0 (by decide)
      simpa using h,
    (c3_amended_row_entries.2.1 huFlavor env0 false st0 1 recAssets).1,
    c3_amended_row_entries.2.2 huFlavor env0 false st0 1 recBadPrice "Invalid price: abc"
      (by decide) (by decide) (by decide)⟩

end VendureImport
